import Mathlib

/-!
# Verification of the nodio node-graph canvas engine

A shallow embedding of `crates/nodio-gui-nodes` (files `lib.rs`, `node.rs`,
`pin.rs`, `style.rs`).  Screen coordinates (`f32` in the source) are modelled
as exact rationals `ℚ`; the trigonometric fan-out geometry of `style.rs` is
modelled over `ℝ` in a separate section.  Entity stores (`IndexMap` in the
source) are modelled as insertion-ordered association lists.  Functions whose
Rust source can panic (`unwrap` on a failed lookup) return `Option`, with
`none` standing for the panic.

The file `link.rs` (the `LinkData` record and the bezier geometry
`LinkBezierData`) is not part of the sources; the bezier payload is
abstracted by a `Geometry` parameter record (see its docstring), and
`LinkData` is reconstructed from its uses in `lib.rs`.
-/

/-- Entity identifier (`uuid::Uuid` in the source). `Uuid::nil()` is 0. -/
abbrev Uuid := Nat

/-- `Uuid::nil()`, used by `link_index_for_end_pin` for the provisional link. -/
def uuidNil : Uuid := 0

/-- `egui::Pos2`, a screen-space point with `f32` coordinates modelled as `ℚ`. -/
structure Pos2 where
  x : ℚ
  y : ℚ
deriving DecidableEq, Repr

/-- `egui::Vec2`. -/
structure Vec2 where
  x : ℚ
  y : ℚ
deriving DecidableEq, Repr

/-- `Pos2 - Pos2` yields a `Vec2` (egui). -/
def Pos2.sub (a b : Pos2) : Vec2 := ⟨a.x - b.x, a.y - b.y⟩

/-- `egui::Vec2::length_sq`. -/
def Vec2.length_sq (v : Vec2) : ℚ := v.x * v.x + v.y * v.y

/-- `egui::Rect` (min/max corners). -/
structure Rect where
  min : Pos2
  max : Pos2
deriving DecidableEq, Repr

/-- `egui::Rect::contains` (inclusive on all edges). -/
def Rect.contains (r : Rect) (p : Pos2) : Bool :=
  r.min.x ≤ p.x && p.x ≤ r.max.x && r.min.y ≤ p.y && p.y ≤ r.max.y

/-- `egui::Rect::intersects` (inclusive interval overlap on both axes). -/
def Rect.intersects (r o : Rect) : Bool :=
  r.min.x ≤ o.max.x && o.min.x ≤ r.max.x && r.min.y ≤ o.max.y && o.min.y ≤ r.max.y

/-- `pin.rs`: `AttributeKind`. -/
inductive AttributeKind where
  | None
  | Input
  | Output
deriving DecidableEq, Repr

/-- `pin.rs`: `AttributeFlags::EnableLinkDetachWithDragClick = 1 << 0`. -/
def flagLinkDetachWithDragClick : Nat := 1

/-- `pin.rs`: `AttributeFlags::EnableLinkCreationOnSnap = 1 << 1`. -/
def flagLinkCreationOnSnap : Nat := 2

/-- `pin.rs`: `PinData` (color/shape fields, irrelevant to the claims, omitted). -/
structure PinData where
  in_use : Bool
  parent_node_id : Uuid
  attribute_rect : Rect
  kind : AttributeKind
  pos : Pos2
  flags : Nat
deriving DecidableEq, Repr

/-- `pin.rs`: `PinData::new` (the `Default`). -/
def PinData.new : PinData :=
  { in_use := true
    parent_node_id := 0
    attribute_rect := ⟨⟨0, 0⟩, ⟨0, 0⟩⟩
    kind := AttributeKind.None
    pos := ⟨0, 0⟩
    flags := 0 }

/-- `pin.rs`: `PinData::is_output`. -/
def PinData.is_output (p : PinData) : Bool := p.kind = AttributeKind.Output

/-- `pin.rs`: `PinData::link_creation_on_snap_enabled`. -/
def PinData.link_creation_on_snap_enabled (p : PinData) : Bool :=
  p.flags &&& flagLinkCreationOnSnap ≠ 0

/-- `node.rs`: `Node` (color/layout/shape bookkeeping omitted; `pin_ids` is a
`HashSet` in the source, modelled as an insertion-ordered list). -/
structure Node where
  in_use : Bool
  origin : Pos2
  rect : Rect
  pin_ids : List Uuid
  draggable : Bool
deriving DecidableEq, Repr

/-- `node.rs`: `Node::new`. -/
def Node.new : Node :=
  { in_use := true
    origin := ⟨100, 100⟩
    rect := ⟨⟨0, 0⟩, ⟨0, 0⟩⟩
    pin_ids := []
    draggable := true }

/-- `link.rs` is not under `src/`; `LinkData`'s fields are reconstructed from
their uses in `lib.rs` (`in_use`, `start_pin_id`, `end_pin_id`; the color
style and allocated shape index are irrelevant to the claims). -/
structure LinkData where
  in_use : Bool
  start_pin_id : Uuid
  end_pin_id : Uuid
deriving DecidableEq, Repr

/-- `LinkData`'s `Default` as used by `Context::add_link`'s `or_default`
(every field is overwritten before use except `in_use`, set right after). -/
def LinkData.default : LinkData :=
  { in_use := false, start_pin_id := 0, end_pin_id := 0 }

/-- `style.rs`: the `Style` fields that feed the rational (non-trigonometric)
parts of the engine. -/
structure Style where
  link_hover_distance : ℚ
  pin_hover_radius : ℚ
  pin_offset : ℚ
deriving DecidableEq, Repr

/-- `style.rs`: `Style::get_screen_space_pin_coordinates`:
input pins sit at the node rect's left edge minus `pin_offset`, all others at
the right edge plus `pin_offset`, vertically centered on the attribute rect. -/
def Style.get_screen_space_pin_coordinates (s : Style) (node_rect attribute_rect : Rect)
    (kind : AttributeKind) : Pos2 :=
  let x := match kind with
    | AttributeKind.Input => node_rect.min.x - s.pin_offset
    | _ => node_rect.max.x + s.pin_offset
  ⟨x, (attribute_rect.min.y + attribute_rect.max.y) / 2⟩

/-- `lib.rs`: `ClickInteractionType`. -/
inductive ClickInteractionType where
  | Node
  | Link
  | LinkCreation
  | Panning
  | BoxSelection
  | None
deriving DecidableEq, Repr

/-- `lib.rs`: `LinkCreationType`. -/
inductive LinkCreationType where
  | Standard
  | FromDetach
deriving DecidableEq, Repr

/-- `lib.rs`: `ClickInteractionStateLinkCreation`. -/
structure ClickInteractionStateLinkCreation where
  start_pin_id : Uuid
  end_pin_id : Option Uuid
  detached_link_id : Option Uuid
  link_creation_type : LinkCreationType
deriving DecidableEq, Repr

/-- `lib.rs`: `ClickInteractionState`. -/
structure ClickInteractionState where
  link_creation : ClickInteractionStateLinkCreation
  box_selection : Rect
deriving DecidableEq, Repr

/-- `lib.rs`: `ElementStateChange::LinkStarted = 1 << 0`. -/
def changeLinkStarted : Nat := 1

/-- `lib.rs`: `ElementStateChange::LinkDropped = 1 << 1`. -/
def changeLinkDropped : Nat := 2

/-- `lib.rs`: `ElementStateChange::LinkCreated = 1 << 2`. -/
def changeLinkCreated : Nat := 4

/-- `lib.rs`: the `Context` state, restricted to the fields the per-frame
logic reads or writes (UI handles, paint bookkeeping and the `IO`
configuration record are outside the embedding; the configuration's effect
enters through the per-frame booleans such as
`link_detach_with_modifier_click`).  The entity maps (`IndexMap` in the
source) are insertion-ordered association lists, and `end_pin_link_mapping`
(a `HashMap` of `Vec`s) an association list of lists. -/
structure Context where
  style : Style
  node_ids_overlapping_with_mouse : List Uuid
  occluded_pin_ids : List Uuid
  hovered_node_id : Option Uuid
  hovered_link_id : Option Uuid
  hovered_pin_id : Option Uuid
  detached_link_id : Option Uuid
  dropped_link_id : Option Uuid
  snap_link_id : Option Uuid
  hovered_pin_flags : Nat
  element_state_change : Nat
  mouse_pos : Pos2
  mouse_delta : Vec2
  left_mouse_pressed : Bool
  left_mouse_released : Bool
  left_mouse_dragging : Bool
  alt_mouse_clicked : Bool
  alt_mouse_dragging : Bool
  mouse_in_canvas : Bool
  link_detach_with_modifier_click : Bool
  nodes : List (Uuid × Node)
  pins : List (Uuid × PinData)
  links : List (Uuid × LinkData)
  end_pin_link_mapping : List (Uuid × List Uuid)
  panning : Vec2
  selected_node_ids : List Uuid
  selected_link_ids : List Uuid
  node_depth_order : List Uuid
  provisional_link : Option (Uuid × Option Uuid)
  click_interaction_type : ClickInteractionType
  click_interaction_state : ClickInteractionState
deriving DecidableEq, Repr

/-- First binding for a key in an association list (`IndexMap::get`). -/
def mapGet {α : Type} (m : List (Uuid × α)) (k : Uuid) : Option α :=
  (m.find? (fun p => p.1 = k)).map (fun p => p.2)

/-- `IndexMap::contains_key`. -/
def mapContains {α : Type} (m : List (Uuid × α)) (k : Uuid) : Bool :=
  (mapGet m k).isSome

/-- Update every binding of key `k` in place (`IndexMap::get_mut`; with unique
keys this is the single binding for `k`). -/
def mapAdjust {α : Type} (m : List (Uuid × α)) (k : Uuid) (f : α → α) :
    List (Uuid × α) :=
  m.map (fun p => if p.1 = k then (p.1, f p.2) else p)

/-- `IndexMap`'s entry-or-insert (`entry(k).or_insert_with(init)` followed by
an in-place mutation `f`): if `k` is bound, the binding is updated by `f`;
otherwise `init` is inserted at the back, updated by `f`. -/
def mapEntryUpsert {α : Type} (m : List (Uuid × α)) (k : Uuid) (init : α) (f : α → α) :
    List (Uuid × α) :=
  if mapContains m k then mapAdjust m k f else m ++ [(k, f init)]

/-- A convenient all-defaults context for concrete test states. -/
def Context.empty : Context :=
  { style := { link_hover_distance := 10, pin_hover_radius := 25, pin_offset := 0 }
    node_ids_overlapping_with_mouse := []
    occluded_pin_ids := []
    hovered_node_id := none
    hovered_link_id := none
    hovered_pin_id := none
    detached_link_id := none
    dropped_link_id := none
    snap_link_id := none
    hovered_pin_flags := 0
    element_state_change := 0
    mouse_pos := ⟨0, 0⟩
    mouse_delta := ⟨0, 0⟩
    left_mouse_pressed := false
    left_mouse_released := false
    left_mouse_dragging := false
    alt_mouse_clicked := false
    alt_mouse_dragging := false
    mouse_in_canvas := false
    link_detach_with_modifier_click := false
    nodes := []
    pins := []
    links := []
    end_pin_link_mapping := []
    panning := ⟨0, 0⟩
    selected_node_ids := []
    selected_link_ids := []
    node_depth_order := []
    provisional_link := none
    click_interaction_type := ClickInteractionType.None
    click_interaction_state :=
      { link_creation :=
          { start_pin_id := 0
            end_pin_id := none
            detached_link_id := none
            link_creation_type := LinkCreationType.Standard }
        box_selection := ⟨⟨0, 0⟩, ⟨0, 0⟩⟩ } }

/-- `lib.rs` line 260: `Context::num_selected_nodes` — returns
`self.selected_link_ids.len()` (sic, the link list). -/
def Context.num_selected_nodes (c : Context) : Nat :=
  c.selected_link_ids.length

/-- `lib.rs`: `Context::get_selected_nodes`. -/
def Context.get_selected_nodes (c : Context) : List Uuid :=
  c.selected_node_ids

/-- `lib.rs`: `Context::get_selected_links`. -/
def Context.get_selected_links (c : Context) : List Uuid :=
  c.selected_link_ids

/-- `lib.rs`: `Context::begin_link_selection`. -/
def Context.begin_link_selection (c : Context) (link_id : Uuid) : Context :=
  { c with click_interaction_type := ClickInteractionType.Link
           selected_node_ids := []
           selected_link_ids := [link_id] }

/-- `lib.rs` `Context::begin_frame` lines 94–118 (store part): clear the
per-frame result fields and reset every entity's liveness flag.  The
UI/painting part of `begin_frame` does not touch the entity stores. -/
def Context.begin_frame_reset (c : Context) : Context :=
  { c with hovered_node_id := none
           hovered_link_id := none
           hovered_pin_flags := 0
           detached_link_id := none
           dropped_link_id := none
           snap_link_id := none
           provisional_link := none
           end_pin_link_mapping := []
           node_ids_overlapping_with_mouse := []
           element_state_change := 0
           nodes := c.nodes.map (fun p => (p.1, { p.2 with in_use := false }))
           pins := c.pins.map (fun p => (p.1, { p.2 with in_use := false }))
           links := c.links.map (fun p => (p.1, { p.2 with in_use := false })) }

/-- The store effect of `Context::show_node` (lib.rs lines 352–431) for a
declared node id: `nodes.entry(id).or_insert_with(..)` — on creation the
origin may be overridden by the builder's `pos` and the id is pushed to the
depth order if absent — then `in_use = true`.  Layout, painting and the
attribute pass (modelled separately as `add_attribute` events) are omitted. -/
def Context.show_node_decl (c : Context) (node_id : Uuid) (pos : Option Pos2) : Context :=
  let created := !mapContains c.nodes node_id
  let init := match pos with
    | some p => { Node.new with origin := p }
    | none => Node.new
  { c with nodes := mapEntryUpsert c.nodes node_id init (fun n => { n with in_use := true })
           node_depth_order :=
             if created ∧ ¬ c.node_depth_order.contains node_id then
               c.node_depth_order ++ [node_id]
             else c.node_depth_order }

/-- `lib.rs` `Context::add_attribute` lines 433–457 (store part): when the
kind is not `None`, upsert the pin, mark it live, bind owner/kind/rect and
register it on the owning node (`nodes.get_mut(..).unwrap()`, a panic — hence
`none` — if the node is absent).  The `active_attribute` pointer-capture part
is driven by the UI response and is outside the store model. -/
def Context.add_attribute (c : Context) (pin_id node_id : Uuid) (kind : AttributeKind)
    (rect : Rect) : Option Context :=
  if kind = AttributeKind.None then some c
  else
    let pins' := mapEntryUpsert c.pins pin_id PinData.new
      (fun p => { p with in_use := true
                         parent_node_id := node_id
                         kind := kind
                         attribute_rect := rect })
    if mapContains c.nodes node_id then
      some { c with pins := pins'
                    nodes := mapAdjust c.nodes node_id
                      (fun n => { n with pin_ids := n.pin_ids ++ [pin_id] }) }
    else none

/-- `lib.rs` `Context::add_link` lines 459–493: append to the end-pin fan-out
index, upsert the link and mark it live, then check whether this link is the
one being snapped into.  When the interaction is `LinkCreation` the snap
check unwraps the end pin (`none` models the panic on a missing pin); the
`||` branch is short-circuited and does no lookup. -/
def Context.add_link (c : Context) (id start_pin_id end_pin_id : Uuid) : Option Context :=
  let mapping := mapEntryUpsert c.end_pin_link_mapping end_pin_id []
    (fun l => l ++ [id])
  let links' := mapEntryUpsert c.links id LinkData.default
    (fun l => { l with in_use := true
                       start_pin_id := start_pin_id
                       end_pin_id := end_pin_id })
  let c' := { c with end_pin_link_mapping := mapping, links := links' }
  let lc := c.click_interaction_state.link_creation
  if c.click_interaction_type = ClickInteractionType.LinkCreation then
    match mapGet c.pins end_pin_id with
    | none => none
    | some end_pin =>
      if (end_pin.link_creation_on_snap_enabled
            ∧ lc.start_pin_id = start_pin_id ∧ lc.end_pin_id = some end_pin_id)
          ∨ (lc.start_pin_id = end_pin_id ∧ lc.end_pin_id = some start_pin_id) then
        some { c' with snap_link_id := some id }
      else some c'
  else
    if lc.start_pin_id = end_pin_id ∧ lc.end_pin_id = some start_pin_id then
      some { c' with snap_link_id := some id }
    else some c'

/-- One caller declaration event, in execution order within a frame: a
`show_node` call, an attribute inside a node's builder, or an `add_link`. -/
inductive Decl where
  | node (node_id : Uuid) (pos : Option Pos2)
  | attr (pin_id node_id : Uuid) (kind : AttributeKind) (rect : Rect)
  | link (id start_pin_id end_pin_id : Uuid)
deriving DecidableEq, Repr

/-- Apply one declaration event. -/
def Context.apply_decl (c : Context) : Decl → Option Context
  | Decl.node id pos => some (c.show_node_decl id pos)
  | Decl.attr pin_id node_id kind rect => c.add_attribute pin_id node_id kind rect
  | Decl.link id s e => c.add_link id s e

/-- Apply a frame's declaration events in order. -/
def Context.run_decls (c : Context) : List Decl → Option Context
  | [] => some c
  | d :: ds => (c.apply_decl d).bind (fun c' => c'.run_decls ds)

/-- Does the declaration list re-declare node `id` (set its `in_use`)? -/
def declaresNode (ds : List Decl) (id : Uuid) : Prop :=
  ∃ d ∈ ds, ∃ pos, d = Decl.node id pos

/-- Does the declaration list re-declare pin `id`?  Only an attribute with a
kind other than `None` touches the pin store (`add_attribute`). -/
def declaresPin (ds : List Decl) (id : Uuid) : Prop :=
  ∃ d ∈ ds, ∃ node_id kind rect, d = Decl.attr id node_id kind rect ∧
    kind ≠ AttributeKind.None

/-- Does the declaration list re-declare link `id`? -/
def declaresLink (ds : List Decl) (id : Uuid) : Prop :=
  ∃ d ∈ ds, ∃ s e, d = Decl.link id s e

/-- `lib.rs` `Context::end_frame` lines 215–223: the `nodes.retain` pass.  A
live node survives with its pin-id set cleared; a stale node is dropped and
its id detached from the depth-order list (the closure runs in iteration
order, filtering the depth list as each stale node is encountered). -/
def purgeNodes : List (Uuid × Node) → List Uuid → List (Uuid × Node) × List Uuid
  | [], depth => ([], depth)
  | (id, n) :: rest, depth =>
    if n.in_use then
      let r := purgeNodes rest depth
      ((id, { n with pin_ids := [] }) :: r.1, r.2)
    else
      purgeNodes rest (depth.filter (fun x => x ≠ id))

/-- `lib.rs` `Context::end_frame` lines 215–226: purge every entity whose
liveness flag was not set this frame. -/
def Context.purge_unused (c : Context) : Context :=
  let r := purgeNodes c.nodes c.node_depth_order
  { c with nodes := r.1
           node_depth_order := r.2
           pins := c.pins.filter (fun p => p.2.in_use)
           links := c.links.filter (fun p => p.2.in_use) }

/-- All bindings of `id` in a store are stale (liveness flag unset). -/
def staleAt {α : Type} (inUse : α → Bool) (m : List (Uuid × α)) (id : Uuid) : Prop :=
  ∀ b ∈ m, b.1 = id → inUse b.2 = false

/-- A concrete context for the C1 witness: one live node (id 1, also in the
depth order), one live pin (id 2), one live link (id 3). -/
def c1Ctx : Context :=
  { Context.empty with
      nodes := [(1, Node.new)]
      pins := [(2, PinData.new)]
      links := [(3, { in_use := true, start_pin_id := 2, end_pin_id := 2 })]
      node_depth_order := [1] }

/-- `lib.rs` `Context::find_duplicate_link` lines 1292–1300: first in-use
link with the given (start, end) pin pair. -/
def Context.find_duplicate_link (c : Context) (start_pin_id end_pin_id : Uuid) :
    Option Uuid :=
  c.links.findSome? (fun p =>
    if p.2.in_use ∧ p.2.start_pin_id = start_pin_id ∧ p.2.end_pin_id = end_pin_id then
      some p.1
    else none)

/-- `lib.rs` `Context::should_link_snap_to_pin` lines 945–968: a hovered
candidate end pin is rejected if it is on the start pin's own node, of the
start pin's own kind, or already connected by a duplicate link other than
the one being re-snapped (`snap_link_id`).  The source unwraps the hovered
pin (`none` models the panic). -/
def Context.should_link_snap_to_pin (c : Context) (start_pin : PinData)
    (hovered_pin_id : Uuid) (duplicate_link : Option Uuid) : Option Bool :=
  (mapGet c.pins hovered_pin_id).map (fun end_pin =>
    if start_pin.parent_node_id = end_pin.parent_node_id then false
    else if start_pin.kind = end_pin.kind then false
    else if duplicate_link.elim false (fun d => some d != c.snap_link_id) then false
    else true)

/-- Concrete context for the C4 witness: an output pin 1 on node 10 and an
input pin 2 on node 20, no committed links. -/
def c4Ctx : Context :=
  { Context.empty with
      pins :=
        [(1, { PinData.new with kind := AttributeKind.Output, parent_node_id := 10 }),
         (2, { PinData.new with kind := AttributeKind.Input, parent_node_id := 20 })] }

/-- Inner loop of `resolve_occluded_pins` over one lower node's pin ids:
collect those whose stored position lies inside the higher node's rect
(`pins.get(pin_id).unwrap()`: `none` models the panic). -/
def occludedPinsBelow (c : Context) (pin_ids : List Uuid) (rect_above : Rect) :
    Option (List Uuid) :=
  match pin_ids with
  | [] => some []
  | pid :: rest =>
    (mapGet c.pins pid).bind fun pin =>
      (occludedPinsBelow c rest rect_above).map fun acc =>
        if rect_above.contains pin.pos then pid :: acc else acc

/-- Middle loop of `resolve_occluded_pins`: one lower node against every node
deeper in the depth stack (`nodes.get(next_depth).unwrap()`). -/
def occludedAgainst (c : Context) (node_below : Node) (highers : List Uuid) :
    Option (List Uuid) :=
  match highers with
  | [] => some []
  | hid :: rest =>
    (mapGet c.nodes hid).bind fun above =>
      (occludedPinsBelow c node_below.pin_ids above.rect).bind fun l1 =>
        (occludedAgainst c node_below rest).map fun l2 => l1 ++ l2

/-- Outer loop of `resolve_occluded_pins` over depth positions `0..len-1`
(the last node is never a lower node, and a stack shorter than 2 yields
nothing). -/
def occludedScan (c : Context) : List Uuid → Option (List Uuid)
  | [] => some []
  | [_] => some []
  | nid :: rest =>
    (mapGet c.nodes nid).bind fun below =>
      (occludedAgainst c below rest).bind fun l1 =>
        (occludedScan c rest).map fun l2 => l1 ++ l2

/-- `lib.rs` `Context::resolve_occluded_pins` lines 529–549: for each pair of
depth layers (lower, higher), every pin of the lower node whose resolved
position falls inside the higher node's rect is recorded as occluded. -/
def Context.resolve_occluded_pins (c : Context) : Option Context :=
  (occludedScan c c.node_depth_order).map fun l => { c with occluded_pin_ids := l }

/-- `lib.rs` `Context::resolve_hovered_pin` lines 551–568: among non-occluded
pins, pick the one with the smallest squared distance to the pointer within
`pin_hover_radius` (the `f32::MAX` seed is modelled by `none`). -/
def hoveredPinStep (c : Context) (acc : Option ℚ × Option Uuid) (p : Uuid × PinData) :
    Option ℚ × Option Uuid :=
  if c.occluded_pin_ids.contains p.1 then acc
  else
    let distance_sqr := (Pos2.sub p.2.pos c.mouse_pos).length_sq
    if distance_sqr < c.style.pin_hover_radius ^ 2 then
      match acc.1 with
      | none => (some distance_sqr, some p.1)
      | some s =>
        if distance_sqr < s then (some distance_sqr, some p.1) else acc
    else acc

def Context.resolve_hovered_pin (c : Context) : Context :=
  let r := c.pins.foldl (hoveredPinStep c) (none, none)
  { c with hovered_pin_id := r.2 }

/-- The inner `for (depth_idx, depth_node_id) in enumerate` loop of
`resolve_hovered_node` for one overlap candidate. -/
def hoveredNodeStep (depth_enum : List (Nat × Uuid)) (node_id : Uuid)
    (acc : ℤ × Option Uuid) : ℤ × Option Uuid :=
  depth_enum.foldl
    (fun acc pr =>
      if pr.2 = node_id ∧ (pr.1 : ℤ) > acc.1 then ((pr.1 : ℤ), some node_id) else acc)
    acc

/-- `lib.rs` `Context::resolve_hovered_node` lines 570–592: no candidate
clears the hover, a single candidate wins outright, and among several the
candidate with the greatest depth-order index wins (`largest_depth_idx`
starts at `-1`). -/
def Context.resolve_hovered_node (c : Context) : Context :=
  match c.node_ids_overlapping_with_mouse with
  | [] => { c with hovered_node_id := none }
  | [x] => { c with hovered_node_id := some x }
  | _ =>
    let r := c.node_ids_overlapping_with_mouse.foldl
      (fun acc node_id => hoveredNodeStep c.node_depth_order.enum node_id acc)
      ((-1 : ℤ), c.hovered_node_id)
    { c with hovered_node_id := r.2 }

/-- Running maximum depth index of `node_id` inside the enumerated depth
stack, seeded with `a` (the pure first component of `hoveredNodeStep`). -/
def bestIdx (depth_enum : List (Nat × Uuid)) (node_id : Uuid) (a : ℤ) : ℤ :=
  depth_enum.foldl
    (fun acc pr => if pr.2 = node_id ∧ (pr.1 : ℤ) > acc then (pr.1 : ℤ) else acc) a

/-- Concrete context for the C5 witness: nodes 1 (lower) and 2 (higher) share
the rect (0,0)–(10,10) and both overlap the pointer; pin 7 of node 1 sits at
(5,5), inside node 2's rect. -/
def c5Ctx : Context :=
  { Context.empty with
      node_ids_overlapping_with_mouse := [1, 2]
      node_depth_order := [1, 2]
      nodes :=
        [(1, { Node.new with pin_ids := [7], rect := ⟨⟨0, 0⟩, ⟨10, 10⟩⟩ }),
         (2, { Node.new with rect := ⟨⟨0, 0⟩, ⟨10, 10⟩⟩ })]
      pins := [(7, { PinData.new with pos := ⟨5, 5⟩, parent_node_id := 1 })] }

/-- Modelled from the spec: `link.rs` (`LinkBezierData`) is not under `src/`,
and the fan-out anchor (`style.rs` `calculate_link_end_pos`) is `f32`
trigonometry (verified separately over `ℝ`, see `calculate_link_end_pos`).
§4.2 of the spec fixes only their roles — a point-to-curve distance compared
against hover thresholds, a rectangle-vs-curve overlap test, and the fan-out
anchor displacement — so the rational embedding takes the three as an
arbitrary parameter record; every theorem below quantifies over it.
`distToBezier start end kind mouse` stands for
`LinkBezierData::build(start, end, kind, ..).get_distance_to_cubic_bezier(mouse)`,
`bezierOverlap rect start end kind` for `..rectangle_overlaps_bezier(rect)`,
and `fanEndPos pin mouse count idx` for `calculate_link_end_pos`. -/
structure Geometry where
  distToBezier : Pos2 → Pos2 → AttributeKind → Pos2 → ℚ
  bezierOverlap : Rect → Pos2 → Pos2 → AttributeKind → Bool
  fanEndPos : Pos2 → Pos2 → Nat → Nat → Pos2

/-- `lib.rs` `Context::link_count_for_end_pin` lines 648–668: committed links
terminating at the pin, plus the provisional link when it targets this pin
from a different pin. -/
def link_count_for_end_pin (end_pin_links : List (Uuid × List Uuid)) (pin_id : Uuid)
    (prov : Option (Uuid × Option Uuid)) : Nat :=
  let count := (mapGet end_pin_links pin_id).elim 0 List.length
  match prov with
  | some (start_pin_id, some prov_end) =>
    if prov_end = pin_id ∧ start_pin_id ≠ pin_id then count + 1 else count
  | _ => count

/-- Stratum of `atan2(v.y, v.x)` within its range `(-π, π]`, in increasing
angle order: `0` for the open lower half plane (angles in `(-π, 0)`), `1`
for angle `0` (`y = 0, x ≥ 0`, including the zero vector, as
`atan2(0, 0) = 0`), `2` for the open upper half plane (`(0, π)`), `3` for
angle `π` (`y = 0, x < 0`). -/
def angleClass (v : Vec2) : ℤ :=
  if v.y < 0 then 0
  else if v.y = 0 ∧ 0 ≤ v.x then 1
  else if 0 < v.y then 2
  else 3

/-- Within the open half-plane strata the angle `θ = atan2(v.y, v.x)` is
strictly increasing in `-cot θ = -v.x / v.y` (as `cot` is strictly
decreasing on `(-π, 0)` and on `(0, π)`); the single-angle strata use `0`. -/
def angleSlope (v : Vec2) : ℚ :=
  if v.y = 0 then 0 else -(v.x / v.y)

/-- Exact order-invariant of `egui::Vec2::angle()` (`f32::atan2`): comparing
`angleKey`s lexicographically coincides with comparing the mathematical
`atan2` values of exact rational vectors. -/
def angleKey (v : Vec2) : ℤ × ℚ :=
  (angleClass v, angleSlope v)

/-- Strict lexicographic order on angle keys: `keyLt (angleKey v) (angleKey w)`
says `atan2(v) < atan2(w)`. -/
def keyLt (a b : ℤ × ℚ) : Prop :=
  a.1 < b.1 ∨ (a.1 = b.1 ∧ a.2 < b.2)

instance (a b : ℤ × ℚ) : Decidable (keyLt a b) := by
  unfold keyLt
  infer_instance

/-- Stable insert for the descending-angle sort: the element being inserted
originates earlier in the pre-sort list than everything already inserted, so
on an equal angle it goes first, exactly as Rust's stable
`sort_by(|(_, a1), (_, a2)| a2.partial_cmp(a1).unwrap_or(Equal))` keeps the
pre-sort order of equal angles. -/
def insertFanEntry (x : Uuid × Vec2) : List (Uuid × Vec2) → List (Uuid × Vec2)
  | [] => [x]
  | y :: ys =>
    if keyLt (angleKey x.2) (angleKey y.2) then y :: insertFanEntry x ys
    else x :: y :: ys

/-- The stable sort by descending angle in `link_index_for_end_pin`. -/
def sortFanEntries : List (Uuid × Vec2) → List (Uuid × Vec2)
  | [] => []
  | x :: xs => insertFanEntry x (sortFanEntries xs)

/-- `Iterator::position`: index of the first element satisfying `p`. -/
def listPosition {α : Type} (p : α → Bool) : List α → Option Nat
  | [] => none
  | x :: xs => if p x then some 0 else (listPosition p xs).map (· + 1)

/-- Position of the queried link id in the sorted fan list
(`.position(|(id, _)| *id == link_id)`). -/
def fanPosition (link_id : Uuid) (l : List (Uuid × Vec2)) : Option Nat :=
  listPosition (fun pr => pr.1 = link_id) (sortFanEntries l)

/-- The committed sibling entries of `link_index_for_end_pin`: the pin's
terminating link ids other than the queried one, in declaration order, each
paired with the vector from its start pin's stored position to the end pin
(ids whose link or start pin is missing drop out, the source's
`filter_map`s). -/
def siblingFanEntries (links : List (Uuid × LinkData)) (pins : List (Uuid × PinData))
    (link_ids : List Uuid) (link_id : Uuid) (end_pin_pos : Pos2) :
    List (Uuid × Vec2) :=
  (((link_ids.filter (fun id => id ≠ link_id)).filterMap
      (fun lid => (mapGet links lid).map fun l => (lid, l.start_pin_id))).filterMap
      (fun pr => (mapGet pins pr.2).map fun p => (pr.1, p.pos))).map
    (fun pr => (pr.1, Pos2.sub end_pin_pos pr.2))

/-- The provisional link's contribution to the fan list: the `Uuid::nil()`
entry when the provisional link targets this pin from a different pin (its
start-pin lookup is the source's `unwrap`). -/
def provEntries (pins : List (Uuid × PinData)) (end_pin_pos : Pos2)
    (prov : Option (Uuid × Option Uuid)) (pin_id : Uuid) :
    Option (List (Uuid × Vec2)) :=
  match prov with
  | some (spid, some epid) =>
    if epid = pin_id ∧ spid ≠ pin_id then
      (mapGet pins spid).map fun sp => [(uuidNil, Pos2.sub end_pin_pos sp.pos)]
    else some []
  | _ => some []

/-- `lib.rs` `Context::link_index_for_end_pin` lines 670–708: the queried
link's position after sorting — by descending start-to-end `atan2` angle —
the sibling links terminating at the pin (the queried link moved from its
sibling slot to the end of the pre-sort list by the `filter`/`chain` pair),
plus the provisional link (id `Uuid::nil()`) when it targets this pin.  The
two leading lookups are the source's `?`; the provisional start-pin lookup is
an `unwrap`. -/
def link_index_for_end_pin (end_pin_links : List (Uuid × List Uuid))
    (links : List (Uuid × LinkData)) (pins : List (Uuid × PinData))
    (prov : Option (Uuid × Option Uuid)) (pin_id link_id : Uuid) (start_pos : Pos2) :
    Option Nat := do
  let end_pin ← mapGet pins pin_id
  let link_ids ← mapGet end_pin_links pin_id
  let withVecs := siblingFanEntries links pins link_ids link_id end_pin.pos
    ++ [(link_id, Pos2.sub end_pin.pos start_pos)]
  let pe ← provEntries pins end_pin.pos prov pin_id
  fanPosition link_id (withVecs ++ pe)

/-- One step of `resolve_hovered_link`'s loop: a link with a missing start or
end pin is skipped outright; otherwise its curve distance to the pointer
competes for the minimum under `link_hover_distance` (the `f32::MAX` seed is
`none`). -/
def hoveredLinkStep (geom : Geometry) (c : Context) (acc : Option ℚ × Option Uuid)
    (pr : Uuid × LinkData) : Option ℚ × Option Uuid :=
  match mapGet c.pins pr.2.start_pin_id, mapGet c.pins pr.2.end_pin_id with
  | some start_pin, some end_pin =>
    let pin_link_count :=
      link_count_for_end_pin c.end_pin_link_mapping pr.2.end_pin_id c.provisional_link
    let idx := (link_index_for_end_pin c.end_pin_link_mapping c.links c.pins
      c.provisional_link pr.2.end_pin_id pr.1 start_pin.pos).getD 0
    let end_pos :=
      if c.hovered_pin_id = some pr.2.end_pin_id ∧ pin_link_count > 1 then
        geom.fanEndPos end_pin.pos c.mouse_pos pin_link_count idx
      else end_pin.pos
    let distance := geom.distToBezier start_pin.pos end_pos start_pin.kind c.mouse_pos
    if distance < c.style.link_hover_distance then
      match acc.1 with
      | none => (some distance, some pr.1)
      | some s => if distance < s then (some distance, some pr.1) else acc
    else acc
  | _, _ => acc

/-- `lib.rs` `Context::resolve_hovered_link` lines 594–646. -/
def Context.resolve_hovered_link (geom : Geometry) (c : Context) : Context :=
  let r := c.links.foldl (hoveredLinkStep geom c) (none, none)
  { c with hovered_link_id := r.2 }

/-- `lib.rs` `Context::begin_link_detach` lines 1232–1243: clear the pending
end pin, restart creation from the endpoint opposite `detach_id`, and mark
the link detached (`links.get(id).unwrap()`: `none` models the panic). -/
def Context.begin_link_detach (c : Context) (id detach_id : Uuid) : Option Context :=
  (mapGet c.links id).map fun link =>
    { c with
        click_interaction_state.link_creation.end_pin_id := none
        click_interaction_state.link_creation.start_pin_id :=
          if detach_id = link.start_pin_id then link.end_pin_id else link.start_pin_id
        detached_link_id := some id }

/-- `lib.rs` `Context::begin_link_interaction` lines 1245–1273.  In the
modifier branch the source compares `f32` Euclidean distances
(`Pos2::distance`); squared distances compare identically, as the square
root is strictly monotone on nonnegative reals. -/
def Context.begin_link_interaction (c : Context) (id : Uuid) : Option Context :=
  (mapGet c.links id).bind fun link =>
    if c.click_interaction_type = ClickInteractionType.LinkCreation then
      if c.hovered_pin_flags &&& flagLinkDetachWithDragClick ≠ 0 then
        match c.hovered_pin_id with
        | none => none
        | some hpid =>
          (c.begin_link_detach id hpid).map fun c1 =>
            { c1 with
                click_interaction_state.link_creation.detached_link_id := some id
                click_interaction_state.link_creation.link_creation_type :=
                  LinkCreationType.FromDetach }
      else some c
    else if c.link_detach_with_modifier_click then
      match mapGet c.pins link.start_pin_id, mapGet c.pins link.end_pin_id with
      | some start_pin, some end_pin =>
        let dist_to_start := (Pos2.sub start_pin.pos c.mouse_pos).length_sq
        let dist_to_end := (Pos2.sub end_pin.pos c.mouse_pos).length_sq
        let closest_pin_idx :=
          if dist_to_start < dist_to_end then link.start_pin_id else link.end_pin_id
        Context.begin_link_detach
          { c with click_interaction_type := ClickInteractionType.LinkCreation }
          id closest_pin_idx
      | _, _ => none
    else
      some (c.begin_link_selection id)

/-- `lib.rs` `Context::draw_link` lines 710–780 (state and emission part): a
link that is stale or references a missing pin is skipped before anything is
emitted; a press on a hovered link starts the link interaction; a link
marked detached is skipped after that; otherwise the link's bezier shape is
emitted (the returned `Bool`).  The geometry of the emitted shape (fan-out
index, end position, color) feeds only the paint sink. -/
def Context.draw_link (geom : Geometry) (c : Context) (link_id : Uuid) :
    Option (Context × Bool) :=
  match mapGet c.links link_id with
  | none => none
  | some link =>
    if ¬ link.in_use ∨ ¬ mapContains c.pins link.start_pin_id
        ∨ ¬ mapContains c.pins link.end_pin_id then
      some (c, false)
    else
      let link_hovered := c.hovered_link_id = some link_id
        ∧ c.click_interaction_type ≠ ClickInteractionType.BoxSelection
      (if link_hovered ∧ c.left_mouse_pressed then c.begin_link_interaction link_id
       else some c).bind fun c1 =>
        if c1.detached_link_id = some link_id then some (c1, false)
        else some (c1, true)

/-- `lib.rs` `Context::begin_link_creation` lines 1275–1283. -/
def Context.begin_link_creation (c : Context) (hovered_pin_id : Uuid) : Context :=
  { c with
      click_interaction_type := ClickInteractionType.LinkCreation
      click_interaction_state.link_creation.start_pin_id := hovered_pin_id
      click_interaction_state.link_creation.end_pin_id := none
      click_interaction_state.link_creation.link_creation_type :=
        LinkCreationType.Standard
      element_state_change := c.element_state_change ||| changeLinkStarted }

/-- `lib.rs` `Context::created_link` lines 302–322: when the frame set the
`LinkCreated` flag, report (start, end, created-from-snap), swapping the two
ids so the `Output`-kind pin is reported as start.  The source unwraps the
recorded end pin and the start pin's store entry (`none` models the panic). -/
def Context.created_link (c : Context) : Option (Uuid × Uuid × Bool) :=
  if c.element_state_change &&& changeLinkCreated ≠ 0 then
    match c.click_interaction_state.link_creation.end_pin_id with
    | none => none
    | some e =>
      let s := c.click_interaction_state.link_creation.start_pin_id
      match mapGet c.pins s with
      | none => none
      | some sp =>
        let pr := if sp.kind ≠ AttributeKind.Output then (e, s) else (s, e)
        some (pr.1, pr.2, c.click_interaction_type = ClickInteractionType.LinkCreation)
  else none

/-- The min/max normalization at the top of `box_selector_update_selection`
(and of `rectangle_overlaps_link`): swap the x pair and the y pair when
inverted. -/
def boxSelectionNormalize (r : Rect) : Rect :=
  let r1 := if r.min.x > r.max.x then
      (⟨⟨r.max.x, r.min.y⟩, ⟨r.min.x, r.max.y⟩⟩ : Rect)
    else r
  if r1.min.y > r1.max.y then
    (⟨⟨r1.min.x, r1.max.y⟩, ⟨r1.max.x, r1.min.y⟩⟩ : Rect)
  else r1

/-- `lib.rs` `Context::rectangle_overlaps_link` lines 1017–1048. -/
def Context.rectangle_overlaps_link (geom : Geometry) (c : Context) (rect : Rect)
    (start finish : Pos2) (start_type : AttributeKind) : Bool :=
  let lrect := boxSelectionNormalize ⟨start, finish⟩
  if rect.intersects lrect then
    if rect.contains start || rect.contains finish then true
    else geom.bezierOverlap rect start finish start_type
  else false

/-- The link loop of `box_selector_update_selection` (lines 987–1013): stale
links and links referencing a missing pin are skipped; for the rest, the
owning nodes' rects are unwrapped (`none` models the panic) and the pin
coordinates recomputed for the rectangle-vs-curve test. -/
def boxSelectLinkLoop (geom : Geometry) (c : Context) (box_rect : Rect) :
    List (Uuid × LinkData) → Option (List Uuid)
  | [] => some []
  | pr :: rest =>
    if pr.2.in_use then
      if ¬ mapContains c.pins pr.2.start_pin_id
          ∨ ¬ mapContains c.pins pr.2.end_pin_id then
        boxSelectLinkLoop geom c box_rect rest
      else
        match mapGet c.pins pr.2.start_pin_id, mapGet c.pins pr.2.end_pin_id with
        | some pin_start, some pin_end =>
          (mapGet c.nodes pin_start.parent_node_id).bind fun node_start =>
          (mapGet c.nodes pin_end.parent_node_id).bind fun node_end =>
            let start := c.style.get_screen_space_pin_coordinates node_start.rect
              pin_start.attribute_rect pin_start.kind
            let finish := c.style.get_screen_space_pin_coordinates node_end.rect
              pin_end.attribute_rect pin_end.kind
            (boxSelectLinkLoop geom c box_rect rest).map fun acc =>
              if c.rectangle_overlaps_link geom box_rect start finish pin_start.kind then
                pr.1 :: acc
              else acc
        | _, _ => none
    else boxSelectLinkLoop geom c box_rect rest

/-- `lib.rs` `Context::box_selector_update_selection` lines 970–1015: rebuild
the selected node list as exactly the in-use nodes whose rect intersects the
normalized selection rect, rebuild the selected link list from the
rectangle-vs-curve test, and return the normalized rect. -/
def Context.box_selector_update_selection (geom : Geometry) (c : Context) :
    Option (Context × Rect) :=
  let box_rect := boxSelectionNormalize c.click_interaction_state.box_selection
  let selected_nodes := (c.nodes.filter
    (fun pr => pr.2.in_use && box_rect.intersects pr.2.rect)).map Prod.fst
  (boxSelectLinkLoop geom c box_rect c.links).map fun sel_links =>
    ({ c with selected_node_ids := selected_nodes, selected_link_ids := sel_links },
      box_rect)

/-- The loop of `translate_selected_nodes` over the selected ids
(`nodes.get_mut(..).unwrap()`: `none` models the panic). -/
def translateNodes (delta : Vec2) : List (Uuid × Node) → List Uuid →
    Option (List (Uuid × Node))
  | nodes, [] => some nodes
  | nodes, id :: rest =>
    if mapContains nodes id then
      translateNodes delta
        (mapAdjust nodes id (fun n =>
          if n.draggable then
            { n with origin := ⟨n.origin.x + delta.x, n.origin.y + delta.y⟩ }
          else n))
        rest
    else none

/-- `lib.rs` `Context::translate_selected_nodes` lines 933–943. -/
def Context.translate_selected_nodes (c : Context) : Option Context :=
  if c.left_mouse_dragging then
    (translateNodes c.mouse_delta c.nodes c.selected_node_ids).map fun ns =>
      { c with nodes := ns }
  else some c

/-- The snap-target-change step of the `LinkCreation` branch (lib.rs lines
1105–1119): when a recorded end pin is no longer the hovered pin and a link
was snapped into it, that link is detached.  The two `unwrap`s are covered by
the guard (`snap_link_id.is_some` and the recorded end pin's presence). -/
def Context.link_creation_snap_change (c : Context) : Option Context :=
  let lc := c.click_interaction_state.link_creation
  let snapping_pin_changed := lc.end_pin_id.elim false
    (fun pid => decide (c.hovered_pin_id ≠ some pid))
  if snapping_pin_changed ∧ c.snap_link_id.isSome then
    match c.snap_link_id, lc.end_pin_id with
    | some sid, some epid => c.begin_link_detach sid epid
    | _, _ => none
  else some c

/-- The remainder of the `LinkCreation` branch after the snap-change step
(lib.rs lines 1121–1219), run on the possibly-detached state: draw the
provisional curve (its lookups are kept, its numeric value is paint-only),
then fire the created / dropped events.  Lookups the source unwraps return
through `Option` (`none` is the panic). -/
def Context.link_creation_tail (c1 : Context) (should_snap : Bool)
    (maybe_dup : Option Uuid) : Option Context := do
  let start_pin ← mapGet c1.pins c1.click_interaction_state.link_creation.start_pin_id
  let _parent ← mapGet c1.nodes start_pin.parent_node_id
  let c2 := { c1 with
    provisional_link :=
      some (c1.click_interaction_state.link_creation.start_pin_id, c1.hovered_pin_id) }
  let _ ←
    if should_snap then
      match c2.hovered_pin_id with
      | none => none
      | some hid => do
        let hp ← mapGet c2.pins hid
        let _hparent ← mapGet c2.nodes hp.parent_node_id
        some ()
    else some ()
  let link_creation_on_snap ←
    match c2.hovered_pin_id with
    | none => some false
    | some hid => (mapGet c2.pins hid).map PinData.link_creation_on_snap_enabled
  let c3 := if should_snap then c2
    else { c2 with click_interaction_state.link_creation.end_pin_id := none }
  let create_link := should_snap && (c2.left_mouse_released || link_creation_on_snap)
  if create_link && maybe_dup.isNone
      && (!c2.left_mouse_released
          && decide (c3.click_interaction_state.link_creation.end_pin_id
            = c2.hovered_pin_id)) then
    some c3
  else
    let c4 := if create_link && maybe_dup.isNone then
        { c3 with
            element_state_change := c3.element_state_change ||| changeLinkCreated
            click_interaction_state.link_creation.end_pin_id := c2.hovered_pin_id }
      else c3
    if c2.left_mouse_released then
      let c5 := { c4 with click_interaction_type := ClickInteractionType.None }
      if !create_link then
        let c6 := { c5 with
          element_state_change := c5.element_state_change ||| changeLinkDropped }
        if c6.click_interaction_state.link_creation.link_creation_type
            = LinkCreationType.FromDetach then
          some { c6 with
            dropped_link_id := c6.click_interaction_state.link_creation.detached_link_id }
        else some c6
      else some c5
    else some c4

/-- `lib.rs` `Context::click_interaction_update`, `LinkCreation` branch
(lines 1089–1220): compute the duplicate and snap-eligibility of the hovered
pin against the recorded start pin, run the snap-change step, then the tail. -/
def Context.link_creation_update (c : Context) : Option Context := do
  let lc := c.click_interaction_state.link_creation
  let maybe_dup := c.hovered_pin_id.bind fun h => c.find_duplicate_link lc.start_pin_id h
  let should_snap ←
    match c.hovered_pin_id with
    | none => some false
    | some h => do
      let start_pin ← mapGet c.pins lc.start_pin_id
      c.should_link_snap_to_pin start_pin h maybe_dup
  let c1 ← c.link_creation_snap_change
  c1.link_creation_tail should_snap maybe_dup

/-- `lib.rs` `Context::click_interaction_update` lines 1050–1230 (the box
selector's painting is paint-only; the depth-order rotation on release is
the `retain`+`extend` pair, which moves the selected ids to the back while
preserving both relative orders). -/
def Context.click_interaction_update (geom : Geometry) (c : Context) :
    Option Context :=
  match c.click_interaction_type with
  | ClickInteractionType.BoxSelection =>
    let c0 := { c with
      click_interaction_state.box_selection :=
        ⟨c.click_interaction_state.box_selection.min, c.mouse_pos⟩ }
    (c0.box_selector_update_selection geom).map fun pr =>
      let c1 := pr.1
      if c1.left_mouse_released then
        let ids := c1.node_depth_order.filter (fun id => c1.selected_node_ids.contains id)
        { c1 with
            node_depth_order :=
              (c1.node_depth_order.filter
                (fun id => ¬ c1.selected_node_ids.contains id)) ++ ids
            click_interaction_type := ClickInteractionType.None }
      else c1
  | ClickInteractionType.Node =>
    (c.translate_selected_nodes).map fun c1 =>
      if c1.left_mouse_released then
        { c1 with click_interaction_type := ClickInteractionType.None }
      else c1
  | ClickInteractionType.Link =>
    some (if c.left_mouse_released then
      { c with click_interaction_type := ClickInteractionType.None }
    else c)
  | ClickInteractionType.LinkCreation => c.link_creation_update
  | ClickInteractionType.Panning =>
    some (if c.alt_mouse_dragging ∨ c.alt_mouse_clicked then
      { c with panning := ⟨c.panning.x + c.mouse_delta.x, c.panning.y + c.mouse_delta.y⟩ }
    else { c with click_interaction_type := ClickInteractionType.None })
  | ClickInteractionType.None => some c

/-- A trivial geometry instance for concrete witnesses (the theorems hold
for every `Geometry`). -/
def geomZero : Geometry :=
  { distToBezier := fun _ _ _ _ => 0
    bezierOverlap := fun _ _ _ _ => false
    fanEndPos := fun p _ _ _ => p }

/-- Concrete context for the C6 witness: box selection from anchor (0,0)
with the pointer at (5,5); node 1's rect intersects that box, node 2's does
not. -/
def c6Ctx : Context :=
  { Context.empty with
      click_interaction_type := ClickInteractionType.BoxSelection
      click_interaction_state :=
        { Context.empty.click_interaction_state with
            box_selection := ⟨⟨0, 0⟩, ⟨99, 99⟩⟩ }
      mouse_pos := ⟨5, 5⟩
      nodes :=
        [(1, { Node.new with rect := ⟨⟨0, 0⟩, ⟨4, 4⟩⟩ }),
         (2, { Node.new with rect := ⟨⟨6, 6⟩, ⟨7, 7⟩⟩ })] }

/-- A concrete mid-creation state: pin 10 (`Output`, on node 1) is the
recorded creation start, pin 20 (`Input`, on node 2) is hovered and
snap-eligible, and the left button was released this frame. -/
def c2Ctx : Context :=
  { Context.empty with
      nodes := [(1, Node.new), (2, Node.new)]
      pins :=
        [(10, { PinData.new with kind := AttributeKind.Output, parent_node_id := 1 }),
         (20, { PinData.new with kind := AttributeKind.Input, parent_node_id := 2 })]
      hovered_pin_id := some 20
      left_mouse_released := true
      click_interaction_type := ClickInteractionType.LinkCreation
      click_interaction_state :=
        { link_creation :=
            { start_pin_id := 10
              end_pin_id := none
              detached_link_id := none
              link_creation_type := LinkCreationType.Standard }
          box_selection := ⟨⟨0, 0⟩, ⟨0, 0⟩⟩ } }

/-- The state `link_creation_update` produces from `c2Ctx`. -/
def c2CtxAfter : Context := c2Ctx.link_creation_update.getD Context.empty

/-- A context holding one link whose pins are absent from the pin store. -/
def c3DrawCtx : Context :=
  { Context.empty with links := [(5, { in_use := true, start_pin_id := 1, end_pin_id := 2 })] }

/-- A context caught mid-`LinkCreation` whose recorded creation start pin is
absent from the pin store (as after a purge of its node). -/
def c3PanicCtx : Context :=
  { Context.empty with click_interaction_type := ClickInteractionType.LinkCreation }

/-- A hovered, pressed link (id 5, pins 10 → 20) in `LinkCreation` state with
the hovered end pin 20 carrying the detach-on-drag-click flag. -/
def c7Ctx : Context :=
  { Context.empty with
      links := [(5, { in_use := true, start_pin_id := 10, end_pin_id := 20 })]
      pins :=
        [(10, { PinData.new with kind := AttributeKind.Output, parent_node_id := 1 }),
         (20, { PinData.new with kind := AttributeKind.Input, parent_node_id := 2 })]
      hovered_link_id := some 5
      hovered_pin_id := some 20
      hovered_pin_flags := flagLinkDetachWithDragClick
      left_mouse_pressed := true
      click_interaction_type := ClickInteractionType.LinkCreation }

/-- Modelled from the spec's words: the fan index is obtained by sorting all
sibling links terminating at the pin — each kept in its original declaration
slot, the queried link included — plus the provisional link, by descending
start-to-end angle, with ties broken by original declaration order (the
stable sort of the list in declaration order). -/
def specLinkIndexForEndPin (end_pin_links : List (Uuid × List Uuid))
    (links : List (Uuid × LinkData)) (pins : List (Uuid × PinData))
    (prov : Option (Uuid × Option Uuid)) (pin_id link_id : Uuid) :
    Option Nat := do
  let end_pin ← mapGet pins pin_id
  let link_ids ← mapGet end_pin_links pin_id
  let entries := (link_ids.filterMap
      (fun lid => (mapGet links lid).map fun l => (lid, l.start_pin_id))).filterMap
      (fun pr => (mapGet pins pr.2).map fun p => (pr.1, Pos2.sub end_pin.pos p.pos))
  let pe ← provEntries pins end_pin.pos prov pin_id
  fanPosition link_id (entries ++ pe)

/-- Pin store for the tie-break counterexample: end pin 10 and the two start
pins 11, 12 all share the default position, so both links have the same
start-to-end angle. -/
def c8Pins : List (Uuid × PinData) :=
  [(10, PinData.new), (11, PinData.new), (12, PinData.new)]

def c8Links : List (Uuid × LinkData) :=
  [(1, { in_use := true, start_pin_id := 11, end_pin_id := 10 }),
   (2, { in_use := true, start_pin_id := 12, end_pin_id := 10 })]

def c8Epm : List (Uuid × List Uuid) := [(10, [1, 2])]

/-- Real-valued point for the `f32` trigonometry of `style.rs` (the canvas
coordinates of `calculate_link_end_pos`). -/
structure Pos2R where
  x : ℝ
  y : ℝ

/-- `egui`'s `emath::remap` (a dependency, not in this repository): the
unclamped linear map of `x` from the range `[f0, f1]` onto `[t0, t1]`,
`lerp(to, (x - f0) / (f1 - f0))`. -/
noncomputable def remap (x f0 f1 t0 t1 : ℝ) : ℝ :=
  t0 + ((x - f0) / (f1 - f0)) * (t1 - t0)

/-- The two `Style` fields `hovered_pin_radius` reads (`style.rs` lines
104–105; defaults 25 and 15). -/
structure StyleF where
  pin_hover_radius : ℝ
  pin_hover_shape_radius : ℝ

/-- `style.rs` `Style::hovered_pin_radius` lines 240–247. -/
noncomputable def StyleF.hovered_pin_radius (s : StyleF) (pin_pos mouse_pos : Pos2R) :
    ℝ :=
  min (remap (s.pin_hover_radius
        - Real.sqrt ((pin_pos.x - mouse_pos.x) ^ 2 + (pin_pos.y - mouse_pos.y) ^ 2))
      0 (s.pin_hover_radius - s.pin_hover_shape_radius - 5)
      0 s.pin_hover_shape_radius)
    s.pin_hover_shape_radius

/-- `style.rs` `Style::calculate_link_end_pos` lines 249–263 (`link_count - 1`
is `usize` subtraction). -/
noncomputable def StyleF.calculate_link_end_pos (s : StyleF)
    (pin_pos mouse_pos : Pos2R) (link_count link_index : ℕ) : Pos2R :=
  let ang := Real.pi - ((link_count - 1 : ℕ) : ℝ) * (Real.pi / 8)
    + (link_index : ℝ) * (Real.pi / 4)
  let pin_radius := s.hovered_pin_radius pin_pos mouse_pos
  ⟨pin_pos.x + Real.cos ang * pin_radius, pin_pos.y - Real.sin ang * pin_radius⟩

/-- Modelled from the spec's words: anchor `pin + r·(cos a, −sin a)` with
`a = π − (N−1)·π/8 + i·π/4` (real-number `N − 1`) and `r` the remap of the
hover proximity clamped above by the pin shape radius. -/
noncomputable def specLinkEndAnchor (s : StyleF) (pin_pos mouse_pos : Pos2R)
    (N i : ℕ) : Pos2R :=
  let a := Real.pi - ((N : ℝ) - 1) * (Real.pi / 8) + (i : ℝ) * (Real.pi / 4)
  let r := min (remap (s.pin_hover_radius
        - Real.sqrt ((pin_pos.x - mouse_pos.x) ^ 2 + (pin_pos.y - mouse_pos.y) ^ 2))
      0 (s.pin_hover_radius - s.pin_hover_shape_radius - 5)
      0 s.pin_hover_shape_radius)
    s.pin_hover_shape_radius
  ⟨pin_pos.x + r * Real.cos a, pin_pos.y - r * Real.sin a⟩

def c9Style : StyleF := ⟨25, 15⟩

theorem staleAt_mapEntryUpsert {α : Type} (inUse : α → Bool) (m : List (Uuid × α))
    (k id : Uuid) (init : α) (f : α → α) (hne : k ≠ id)
    (h : staleAt inUse m id) : staleAt inUse (mapEntryUpsert m k init f) id := by
  intro b hb hb1
  unfold mapEntryUpsert at hb
  by_cases hc : mapContains m k
  · simp only [if_pos hc, mapAdjust, List.mem_map] at hb
    obtain ⟨p, hp, hbp⟩ := hb
    by_cases hpk : p.1 = k
    · rw [if_pos hpk] at hbp
      rw [← hbp] at hb1
      exact absurd (hpk ▸ hb1) hne
    · rw [if_neg hpk] at hbp
      exact h b (hbp ▸ hp) hb1
  · simp only [if_neg hc, List.mem_append, List.mem_singleton] at hb
    rcases hb with hb | hb
    · exact h b hb hb1
    · rw [hb] at hb1
      exact absurd hb1 hne

theorem staleAt_mapAdjust {α : Type} (inUse : α → Bool) (m : List (Uuid × α))
    (k id : Uuid) (f : α → α) (hf : ∀ a, inUse (f a) = inUse a)
    (h : staleAt inUse m id) : staleAt inUse (mapAdjust m k f) id := by
  intro b hb hb1
  simp only [mapAdjust, List.mem_map] at hb
  obtain ⟨p, hp, hbp⟩ := hb
  by_cases hpk : p.1 = k
  · rw [if_pos hpk] at hbp
    rw [← hbp] at hb1 ⊢
    rw [hf]
    exact h p hp hb1
  · rw [if_neg hpk] at hbp
    exact h b (hbp ▸ hp) hb1

theorem add_link_nodes_pins (c c' : Context) (lid s e : Uuid)
    (h : c.add_link lid s e = some c') : c'.nodes = c.nodes ∧ c'.pins = c.pins := by
  simp only [Context.add_link] at h
  by_cases ht : c.click_interaction_type = ClickInteractionType.LinkCreation
  · rw [if_pos ht] at h
    cases hg : mapGet c.pins e with
    | none => rw [hg] at h; exact Option.noConfusion h
    | some ep =>
      rw [hg] at h
      simp only [] at h
      split_ifs at h <;> (cases h; exact ⟨rfl, rfl⟩)
  · rw [if_neg ht] at h
    split_ifs at h <;> (cases h; exact ⟨rfl, rfl⟩)

theorem add_link_links (c c' : Context) (lid s e : Uuid)
    (h : c.add_link lid s e = some c') :
    c'.links = mapEntryUpsert c.links lid LinkData.default
      (fun l => { l with in_use := true, start_pin_id := s, end_pin_id := e }) := by
  simp only [Context.add_link] at h
  by_cases ht : c.click_interaction_type = ClickInteractionType.LinkCreation
  · rw [if_pos ht] at h
    cases hg : mapGet c.pins e with
    | none => rw [hg] at h; exact Option.noConfusion h
    | some ep =>
      rw [hg] at h
      simp only [] at h
      split_ifs at h <;> (cases h; rfl)
  · rw [if_neg ht] at h
    split_ifs at h <;> (cases h; rfl)

theorem apply_decl_stale_node (c c' : Context) (d : Decl) (id : Uuid)
    (h : c.apply_decl d = some c') (hnd : ∀ pos, d ≠ Decl.node id pos)
    (hs : staleAt Node.in_use c.nodes id) : staleAt Node.in_use c'.nodes id := by
  cases d with
  | node nid pos =>
    have hne : nid ≠ id := fun he => hnd pos (by rw [he])
    simp only [Context.apply_decl, Option.some.injEq] at h
    subst h
    intro b hb hb1
    simp only [Context.show_node_decl] at hb
    exact staleAt_mapEntryUpsert _ _ _ _ _ _ hne hs b hb hb1
  | attr pid nid kind rect =>
    simp only [Context.apply_decl, Context.add_attribute] at h
    by_cases hk : kind = AttributeKind.None
    · rw [if_pos hk] at h
      cases h
      exact hs
    · rw [if_neg hk] at h
      by_cases hc : mapContains c.nodes nid
      · rw [if_pos hc] at h
        cases h
        intro b hb hb1
        simp only [] at hb
        exact staleAt_mapAdjust Node.in_use c.nodes nid id
          (fun n => { n with pin_ids := n.pin_ids ++ [pid] }) (fun a => rfl) hs b hb hb1
      · rw [if_neg hc] at h
        exact Option.noConfusion h
  | link lid s e =>
    have := (add_link_nodes_pins c c' lid s e h).1
    rw [this]
    exact hs

theorem apply_decl_stale_pin (c c' : Context) (d : Decl) (id : Uuid)
    (h : c.apply_decl d = some c')
    (hnd : ∀ node_id kind rect, d = Decl.attr id node_id kind rect →
      kind = AttributeKind.None)
    (hs : staleAt PinData.in_use c.pins id) : staleAt PinData.in_use c'.pins id := by
  cases d with
  | node nid pos =>
    simp only [Context.apply_decl, Option.some.injEq] at h
    subst h
    exact hs
  | attr pid nid kind rect =>
    simp only [Context.apply_decl, Context.add_attribute] at h
    by_cases hk : kind = AttributeKind.None
    · rw [if_pos hk] at h
      cases h
      exact hs
    · rw [if_neg hk] at h
      have hne : pid ≠ id := by
        intro he
        exact hk (hnd nid kind rect (by rw [he]))
      by_cases hc : mapContains c.nodes nid
      · rw [if_pos hc] at h
        cases h
        intro b hb hb1
        simp only [] at hb
        exact staleAt_mapEntryUpsert _ _ _ _ _ _ hne hs b hb hb1
      · rw [if_neg hc] at h
        exact Option.noConfusion h
  | link lid s e =>
    have := (add_link_nodes_pins c c' lid s e h).2
    rw [this]
    exact hs

theorem apply_decl_stale_link (c c' : Context) (d : Decl) (id : Uuid)
    (h : c.apply_decl d = some c') (hnd : ∀ s e, d ≠ Decl.link id s e)
    (hs : staleAt LinkData.in_use c.links id) : staleAt LinkData.in_use c'.links id := by
  cases d with
  | node nid pos =>
    simp only [Context.apply_decl, Option.some.injEq] at h
    subst h
    exact hs
  | attr pid nid kind rect =>
    simp only [Context.apply_decl, Context.add_attribute] at h
    by_cases hk : kind = AttributeKind.None
    · rw [if_pos hk] at h
      cases h
      exact hs
    · rw [if_neg hk] at h
      by_cases hc : mapContains c.nodes nid
      · rw [if_pos hc] at h
        cases h
        exact hs
      · rw [if_neg hc] at h
        exact Option.noConfusion h
  | link lid s e =>
    have hne : lid ≠ id := fun he => hnd s e (by rw [he])
    have hl := add_link_links c c' lid s e h
    rw [hl]
    exact staleAt_mapEntryUpsert _ _ _ _ _ _ hne hs

theorem run_decls_stale (c c' : Context) (ds : List Decl) (id : Uuid)
    (h : c.run_decls ds = some c') :
    (¬ declaresNode ds id → staleAt Node.in_use c.nodes id →
      staleAt Node.in_use c'.nodes id)
    ∧ (¬ declaresPin ds id → staleAt PinData.in_use c.pins id →
      staleAt PinData.in_use c'.pins id)
    ∧ (¬ declaresLink ds id → staleAt LinkData.in_use c.links id →
      staleAt LinkData.in_use c'.links id) := by
  induction ds generalizing c with
  | nil =>
    simp only [Context.run_decls, Option.some.injEq] at h
    subst h
    exact ⟨fun _ hs => hs, fun _ hs => hs, fun _ hs => hs⟩
  | cons d ds ih =>
    simp only [Context.run_decls] at h
    cases hd : c.apply_decl d with
    | none => rw [hd] at h; exact Option.noConfusion h
    | some c1 =>
      rw [hd] at h
      simp only [Option.some_bind] at h
      obtain ⟨ihn, ihp, ihl⟩ := ih c1 h
      refine ⟨fun hnd hs => ?_, fun hnp hs => ?_, fun hnl hs => ?_⟩
      · refine ihn (fun hcon => hnd ?_) (apply_decl_stale_node c c1 d id hd ?_ hs)
        · obtain ⟨d', hd', hid⟩ := hcon
          exact ⟨d', List.mem_cons_of_mem _ hd', hid⟩
        · intro pos he
          exact hnd ⟨d, List.mem_cons_self _ _, pos, he⟩
      · refine ihp (fun hcon => hnp ?_) (apply_decl_stale_pin c c1 d id hd ?_ hs)
        · obtain ⟨d', hd', hid⟩ := hcon
          exact ⟨d', List.mem_cons_of_mem _ hd', hid⟩
        · intro node_id kind rect he
          by_contra hk
          exact hnp ⟨d, List.mem_cons_self _ _, node_id, kind, rect, he, hk⟩
      · refine ihl (fun hcon => hnl ?_) (apply_decl_stale_link c c1 d id hd ?_ hs)
        · obtain ⟨d', hd', hid⟩ := hcon
          exact ⟨d', List.mem_cons_of_mem _ hd', hid⟩
        · intro s e he
          exact hnl ⟨d, List.mem_cons_self _ _, s, e, he⟩

theorem begin_frame_reset_stale (c : Context) (id : Uuid) :
    staleAt Node.in_use c.begin_frame_reset.nodes id
    ∧ staleAt PinData.in_use c.begin_frame_reset.pins id
    ∧ staleAt LinkData.in_use c.begin_frame_reset.links id := by
  refine ⟨?_, ?_, ?_⟩ <;>
  · intro b hb _
    simp only [Context.begin_frame_reset, List.mem_map] at hb
    obtain ⟨p, _, hbp⟩ := hb
    rw [← hbp]

theorem purgeNodes_no_stale (ns : List (Uuid × Node)) (depth : List Uuid) (id : Uuid)
    (hs : staleAt Node.in_use ns id) :
    ∀ b ∈ (purgeNodes ns depth).1, b.1 ≠ id := by
  induction ns generalizing depth with
  | nil => intro b hb; exact absurd hb (List.not_mem_nil b)
  | cons p rest ih =>
    intro b hb hbid
    obtain ⟨pid, n⟩ := p
    by_cases hu : n.in_use
    · simp only [purgeNodes, if_pos hu] at hb
      rcases List.mem_cons.mp hb with hb | hb
      · have := hs (pid, n) (List.mem_cons_self _ _) (by rw [hb] at hbid; exact hbid)
        rw [hu] at this
        exact Bool.noConfusion this
      · exact ih depth (fun b hb h1 => hs b (List.mem_cons_of_mem _ hb) h1) b hb hbid
    · simp only [purgeNodes, if_neg hu] at hb
      exact ih _ (fun b hb h1 => hs b (List.mem_cons_of_mem _ hb) h1) b hb hbid

theorem purgeNodes_depth_subset (ns : List (Uuid × Node)) (depth : List Uuid) :
    ∀ x ∈ (purgeNodes ns depth).2, x ∈ depth := by
  induction ns generalizing depth with
  | nil => intro x hx; exact hx
  | cons p rest ih =>
    intro x hx
    obtain ⟨pid, n⟩ := p
    by_cases hu : n.in_use
    · simp only [purgeNodes, if_pos hu] at hx
      exact ih depth x hx
    · simp only [purgeNodes, if_neg hu] at hx
      exact List.mem_of_mem_filter (ih _ x hx)

theorem purgeNodes_depth_removed (ns : List (Uuid × Node)) (depth : List Uuid) (id : Uuid)
    (hs : staleAt Node.in_use ns id) (hex : ∃ b ∈ ns, b.1 = id) :
    id ∉ (purgeNodes ns depth).2 := by
  induction ns generalizing depth with
  | nil => obtain ⟨b, hb, _⟩ := hex; exact absurd hb (List.not_mem_nil b)
  | cons p rest ih =>
    obtain ⟨pid, n⟩ := p
    by_cases hu : n.in_use
    · simp only [purgeNodes, if_pos hu]
      obtain ⟨b, hb, hbid⟩ := hex
      rcases List.mem_cons.mp hb with hb | hb
      · have := hs (pid, n) (List.mem_cons_self _ _) (by rw [hb] at hbid; exact hbid)
        rw [hu] at this
        exact Bool.noConfusion this
      · exact ih depth (fun b hb h1 => hs b (List.mem_cons_of_mem _ hb) h1) ⟨b, hb, hbid⟩
    · simp only [purgeNodes, if_neg hu]
      by_cases hpid : pid = id
      · intro hmem
        have := purgeNodes_depth_subset rest (depth.filter (fun x => x ≠ id)) id
          (hpid ▸ hmem)
        simp only [List.mem_filter, decide_eq_true_eq] at this
        exact this.2 rfl
      · by_cases hex' : ∃ b ∈ rest, b.1 = id
        · exact ih _ (fun b hb h1 => hs b (List.mem_cons_of_mem _ hb) h1) hex'
        · obtain ⟨b, hb, hbid⟩ := hex
          rcases List.mem_cons.mp hb with hb | hb
          · exact absurd (by rw [hb] at hbid; exact hbid) hpid
          · exact absurd ⟨b, hb, hbid⟩ hex'

/-- **C1**: after `end_frame`'s purge, every node, pin and link whose id was
not re-declared during the frame (its `in_use` flag not set by `show_node` /
`add_attribute` / `add_link` after `begin_frame` cleared all flags) has no
binding left in the entity store, and every purged node id is removed from
the depth-order list.  The frame is modelled as `begin_frame_reset` followed
by the frame's declaration events and the `end_frame` purge. -/
theorem c1_end_frame_purges_undeclared (c c' : Context) (ds : List Decl) (id : Uuid)
    (h : c.begin_frame_reset.run_decls ds = some c')
    (hn : ¬ declaresNode ds id) (hp : ¬ declaresPin ds id) (hl : ¬ declaresLink ds id) :
    (∀ b ∈ c'.purge_unused.nodes, b.1 ≠ id)
    ∧ ((∃ b ∈ c'.nodes, b.1 = id) → id ∉ c'.purge_unused.node_depth_order)
    ∧ (∀ b ∈ c'.purge_unused.pins, b.1 ≠ id)
    ∧ (∀ b ∈ c'.purge_unused.links, b.1 ≠ id) := by
  obtain ⟨rsn, rsp, rsl⟩ := begin_frame_reset_stale c id
  obtain ⟨pn, pp, pl⟩ := run_decls_stale _ c' ds id h
  have hsn := pn hn rsn
  have hsp := pp hp rsp
  have hsl := pl hl rsl
  refine ⟨?_, ?_, ?_, ?_⟩
  · intro b hb
    simp only [Context.purge_unused] at hb
    exact purgeNodes_no_stale c'.nodes c'.node_depth_order id hsn b hb
  · intro hex
    simp only [Context.purge_unused]
    exact purgeNodes_depth_removed c'.nodes c'.node_depth_order id hsn hex
  · intro b hb hbid
    simp only [Context.purge_unused, List.mem_filter] at hb
    have := hsp b hb.1 hbid
    rw [hb.2] at this
    exact Bool.noConfusion this
  · intro b hb hbid
    simp only [Context.purge_unused, List.mem_filter] at hb
    have := hsl b hb.1 hbid
    rw [hb.2] at this
    exact Bool.noConfusion this

theorem c1_end_frame_purges_undeclared_witness :
    (c1Ctx.begin_frame_reset.run_decls [Decl.node 4 none]
        = some (c1Ctx.begin_frame_reset.show_node_decl 4 none)
      ∧ ¬ declaresNode [Decl.node 4 none] 1
      ∧ ¬ declaresPin [Decl.node 4 none] 2
      ∧ ¬ declaresLink [Decl.node 4 none] 3)
    ∧ ((∀ b ∈ (c1Ctx.begin_frame_reset.show_node_decl 4 none).purge_unused.nodes, b.1 ≠ 1)
      ∧ ((∃ b ∈ (c1Ctx.begin_frame_reset.show_node_decl 4 none).nodes, b.1 = 1) →
          1 ∉ (c1Ctx.begin_frame_reset.show_node_decl 4 none).purge_unused.node_depth_order))
    ∧ ((∀ b ∈ (c1Ctx.begin_frame_reset.show_node_decl 4 none).purge_unused.pins, b.1 ≠ 2)
      ∧ (∀ b ∈ (c1Ctx.begin_frame_reset.show_node_decl 4 none).purge_unused.links, b.1 ≠ 3)) :=
  ⟨⟨rfl, by simp [declaresNode], by simp [declaresPin], by simp [declaresLink]⟩,
    (by
      obtain ⟨h1, h2, h3, h4⟩ := c1_end_frame_purges_undeclared c1Ctx
        (c1Ctx.begin_frame_reset.show_node_decl 4 none) [Decl.node 4 none] 1 rfl
        (by simp [declaresNode]) (by simp [declaresPin]) (by simp [declaresLink])
      exact ⟨h1, h2⟩),
    (by
      obtain ⟨-, -, h3, -⟩ := c1_end_frame_purges_undeclared c1Ctx
        (c1Ctx.begin_frame_reset.show_node_decl 4 none) [Decl.node 4 none] 2 rfl
        (by simp [declaresNode]) (by simp [declaresPin]) (by simp [declaresLink])
      obtain ⟨-, -, -, h4⟩ := c1_end_frame_purges_undeclared c1Ctx
        (c1Ctx.begin_frame_reset.show_node_decl 4 none) [Decl.node 4 none] 3 rfl
        (by simp [declaresNode]) (by simp [declaresPin]) (by simp [declaresLink])
      exact ⟨h3, h4⟩)⟩

/-- **C10** (code bug): `Context::num_selected_nodes` returns the length of
the *selected link* list, not the selected node list: in the state after
`begin_link_selection` (one selected link, no selected nodes) it returns 1
while `get_selected_nodes` is empty. -/
theorem c10_num_selected_nodes_counts_links :
    (Context.empty.begin_link_selection 5).num_selected_nodes = 1
    ∧ ((Context.empty.begin_link_selection 5).get_selected_nodes).length = 0 :=
  ⟨rfl, rfl⟩

theorem findSome?_dup_some (sid e d : Uuid) (links : List (Uuid × LinkData))
    (h : links.findSome? (fun p =>
        if p.2.in_use ∧ p.2.start_pin_id = sid ∧ p.2.end_pin_id = e then
          some p.1
        else none) = some d) :
    ∃ l, (d, l) ∈ links ∧ l.in_use = true ∧ l.start_pin_id = sid ∧ l.end_pin_id = e := by
  induction links with
  | nil => exact Option.noConfusion h
  | cons b rest ih =>
    rw [List.findSome?_cons] at h
    by_cases hb : b.2.in_use = true ∧ b.2.start_pin_id = sid ∧ b.2.end_pin_id = e
    · rw [if_pos hb] at h
      cases h
      exact ⟨b.2, List.mem_cons_self _ _, hb.1, hb.2.1, hb.2.2⟩
    · rw [if_neg hb] at h
      obtain ⟨l, hl, hrest⟩ := ih h
      exact ⟨l, List.mem_cons_of_mem _ hl, hrest⟩

theorem findSome?_dup_none (sid e : Uuid) (links : List (Uuid × LinkData))
    (h : links.findSome? (fun p =>
        if p.2.in_use ∧ p.2.start_pin_id = sid ∧ p.2.end_pin_id = e then
          some p.1
        else none) = none) :
    ∀ b ∈ links, ¬(b.2.in_use = true ∧ b.2.start_pin_id = sid ∧ b.2.end_pin_id = e) := by
  induction links with
  | nil => intro b hb; exact absurd hb (List.not_mem_nil b)
  | cons b rest ih =>
    rw [List.findSome?_cons] at h
    by_cases hb : b.2.in_use = true ∧ b.2.start_pin_id = sid ∧ b.2.end_pin_id = e
    · rw [if_pos hb] at h
      exact Option.noConfusion h
    · rw [if_neg hb] at h
      intro b' hb'
      rcases List.mem_cons.mp hb' with hb' | hb'
      · rw [hb']
        exact hb
      · exact ih h b' hb'

theorem find_duplicate_link_some (c : Context) (sid e d : Uuid)
    (h : c.find_duplicate_link sid e = some d) :
    ∃ l, (d, l) ∈ c.links ∧ l.in_use = true ∧ l.start_pin_id = sid ∧ l.end_pin_id = e :=
  findSome?_dup_some sid e d c.links h

theorem find_duplicate_link_none (c : Context) (sid e : Uuid)
    (h : c.find_duplicate_link sid e = none) :
    ∀ b ∈ c.links, ¬(b.2.in_use = true ∧ b.2.start_pin_id = sid ∧ b.2.end_pin_id = e) :=
  findSome?_dup_none sid e c.links h

/-- **C4**: during link creation a hovered candidate end pin is accepted as
snap target (`should_link_snap_to_pin`, fed the duplicate found by
`find_duplicate_link` as in `click_interaction_update`) if and only if its
kind differs from the start pin's kind, its owning node differs from the
start pin's owning node, and every committed duplicate link with the same
(start, end) pin pair is the recorded re-snap target `snap_link_id`.  The
at-most-one-duplicate hypothesis is the spec's store invariant (d). -/
theorem c4_snap_eligibility (c : Context) (sid hovered : Uuid) (start_pin ep : PinData)
    (hep : mapGet c.pins hovered = some ep)
    (hu : ∀ b1 ∈ c.links, ∀ b2 ∈ c.links,
      b1.2.in_use = true → b2.2.in_use = true →
      b1.2.start_pin_id = sid → b2.2.start_pin_id = sid →
      b1.2.end_pin_id = hovered → b2.2.end_pin_id = hovered → b1.1 = b2.1) :
    c.should_link_snap_to_pin start_pin hovered (c.find_duplicate_link sid hovered)
        = some true
    ↔ (start_pin.kind ≠ ep.kind
      ∧ start_pin.parent_node_id ≠ ep.parent_node_id
      ∧ ∀ b ∈ c.links, b.2.in_use = true → b.2.start_pin_id = sid →
          b.2.end_pin_id = hovered → c.snap_link_id = some b.1) := by
  unfold Context.should_link_snap_to_pin
  rw [hep]
  simp only [Option.map_some', Option.some.injEq]
  constructor
  · intro h
    by_cases hpar : start_pin.parent_node_id = ep.parent_node_id
    · rw [if_pos hpar] at h
      exact Bool.noConfusion h
    · rw [if_neg hpar] at h
      by_cases hkind : start_pin.kind = ep.kind
      · rw [if_pos hkind] at h
        exact Bool.noConfusion h
      · rw [if_neg hkind] at h
        refine ⟨hkind, hpar, ?_⟩
        intro b hb hbu hbs hbe
        cases hd : c.find_duplicate_link sid hovered with
        | none =>
          exact absurd ⟨hbu, hbs, hbe⟩ (find_duplicate_link_none c sid hovered hd b hb)
        | some d =>
          rw [hd] at h
          obtain ⟨l, hld, hlu, hls, hle⟩ := find_duplicate_link_some c sid hovered d hd
          have hbd : b.1 = d :=
            hu b hb (d, l) hld hbu hlu hbs hls hbe hle
          by_cases hsnap : some d = c.snap_link_id
          · rw [hbd, ← hsnap]
          · rw [Option.elim_some, if_pos (by simp [hsnap])] at h
            exact Bool.noConfusion h
  · rintro ⟨hkind, hpar, hdup⟩
    rw [if_neg hpar, if_neg hkind]
    cases hd : c.find_duplicate_link sid hovered with
    | none => simp
    | some d =>
      obtain ⟨l, hld, hlu, hls, hle⟩ := find_duplicate_link_some c sid hovered d hd
      have := hdup (d, l) hld hlu hls hle
      rw [Option.elim_some, if_neg (by simp [← this])]

theorem c4_snap_eligibility_witness :
    (mapGet c4Ctx.pins 2
        = some { PinData.new with kind := AttributeKind.Input, parent_node_id := 20 }
      ∧ (∀ b1 ∈ c4Ctx.links, ∀ b2 ∈ c4Ctx.links,
          b1.2.in_use = true → b2.2.in_use = true →
          b1.2.start_pin_id = 1 → b2.2.start_pin_id = 1 →
          b1.2.end_pin_id = 2 → b2.2.end_pin_id = 2 → b1.1 = b2.1))
    ∧ (c4Ctx.should_link_snap_to_pin
          { PinData.new with kind := AttributeKind.Output, parent_node_id := 10 } 2
          (c4Ctx.find_duplicate_link 1 2) = some true
      ↔ (({ PinData.new with kind := AttributeKind.Output, parent_node_id := 10 }
            : PinData).kind
            ≠ ({ PinData.new with kind := AttributeKind.Input, parent_node_id := 20 }
            : PinData).kind
        ∧ ({ PinData.new with kind := AttributeKind.Output, parent_node_id := 10 }
            : PinData).parent_node_id
            ≠ ({ PinData.new with kind := AttributeKind.Input, parent_node_id := 20 }
            : PinData).parent_node_id
        ∧ ∀ b ∈ c4Ctx.links, b.2.in_use = true → b.2.start_pin_id = 1 →
            b.2.end_pin_id = 2 → c4Ctx.snap_link_id = some b.1)) :=
  ⟨⟨rfl, by simp [c4Ctx, Context.empty]⟩,
    c4_snap_eligibility c4Ctx 1 2 _ _ rfl (by simp [c4Ctx, Context.empty])⟩

theorem bestIdx_le (l : List (Nat × Uuid)) (nid : Uuid) (a : ℤ) :
    a ≤ bestIdx l nid a := by
  induction l generalizing a with
  | nil => exact le_refl a
  | cons pr rest ih =>
    by_cases hc : pr.2 = nid ∧ (pr.1 : ℤ) > a
    · simp only [bestIdx, List.foldl_cons, if_pos hc]
      have h2 := ih ((pr.1 : ℤ))
      simp only [bestIdx] at h2
      exact le_trans (le_of_lt hc.2) h2
    · simp only [bestIdx, List.foldl_cons, if_neg hc]
      have h2 := ih a
      simp only [bestIdx] at h2
      exact h2

theorem bestIdx_ub (l : List (Nat × Uuid)) (nid : Uuid) (a B : ℤ) (ha : a ≤ B)
    (hl : ∀ pr ∈ l, pr.2 = nid → (pr.1 : ℤ) ≤ B) : bestIdx l nid a ≤ B := by
  induction l generalizing a with
  | nil => exact ha
  | cons pr rest ih =>
    by_cases hc : pr.2 = nid ∧ (pr.1 : ℤ) > a
    · simp only [bestIdx, List.foldl_cons, if_pos hc]
      exact ih (pr.1 : ℤ) (hl pr (List.mem_cons_self _ _) hc.1)
        (fun q hq hq2 => hl q (List.mem_cons_of_mem _ hq) hq2)
    · simp only [bestIdx, List.foldl_cons, if_neg hc]
      exact ih a ha (fun q hq hq2 => hl q (List.mem_cons_of_mem _ hq) hq2)

theorem bestIdx_ge_pos (l : List (Nat × Uuid)) (nid : Uuid) (a : ℤ) (pr : Nat × Uuid)
    (hpr : pr ∈ l) (hnid : pr.2 = nid) : (pr.1 : ℤ) ≤ bestIdx l nid a := by
  induction l generalizing a with
  | nil => exact absurd hpr (List.not_mem_nil pr)
  | cons q rest ih =>
    rcases List.mem_cons.mp hpr with hq | hq
    · by_cases hc : q.2 = nid ∧ (q.1 : ℤ) > a
      · simp only [bestIdx, List.foldl_cons, if_pos hc]
        rw [hq]
        exact bestIdx_le rest nid _
      · have hle : (q.1 : ℤ) ≤ a := by
          by_contra hgt
          exact hc ⟨hq ▸ hnid, lt_of_not_le hgt⟩
        simp only [bestIdx, List.foldl_cons, if_neg hc]
        calc (pr.1 : ℤ) = (q.1 : ℤ) := by rw [hq]
          _ ≤ a := hle
          _ ≤ bestIdx rest nid a := bestIdx_le rest nid a
    · by_cases hc : q.2 = nid ∧ (q.1 : ℤ) > a
      · simp only [bestIdx, List.foldl_cons, if_pos hc]
        exact ih _ hq
      · simp only [bestIdx, List.foldl_cons, if_neg hc]
        exact ih _ hq

theorem hoveredNodeStep_char (l : List (Nat × Uuid)) (nid : Uuid) (a : ℤ)
    (h : Option Uuid) :
    hoveredNodeStep l nid (a, h) =
      (bestIdx l nid a, if bestIdx l nid a > a then some nid else h) := by
  induction l generalizing a h with
  | nil =>
    simp only [hoveredNodeStep, List.foldl_nil, bestIdx]
    rw [if_neg (lt_irrefl a)]
  | cons pr rest ih =>
    by_cases hc : pr.2 = nid ∧ (pr.1 : ℤ) > a
    · simp only [hoveredNodeStep, List.foldl_cons, if_pos hc, bestIdx]
      have := ih (pr.1 : ℤ) (some nid)
      simp only [hoveredNodeStep, bestIdx] at this
      rw [this, ite_self]
      have hgt : bestIdx rest nid (pr.1 : ℤ) > a :=
        lt_of_lt_of_le hc.2 (bestIdx_le rest nid _)
      rw [if_pos (by simpa [bestIdx] using hgt)]
    · simp only [hoveredNodeStep, List.foldl_cons, if_neg hc, bestIdx]
      have := ih a h
      simp only [hoveredNodeStep, bestIdx] at this
      rw [this]

theorem hovered_fold_fixed (enum : List (Nat × Uuid)) (cs : List Uuid) (m : Uuid) (dm : ℤ)
    (hub : ∀ n ∈ cs, ∀ pr ∈ enum, pr.2 = n → (pr.1 : ℤ) ≤ dm) :
    cs.foldl (fun acc node_id => hoveredNodeStep enum node_id acc) (dm, some m)
      = (dm, some m) := by
  induction cs with
  | nil => rfl
  | cons n cs' ih =>
    rw [List.foldl_cons, hoveredNodeStep_char]
    have hle : bestIdx enum n dm ≤ dm :=
      bestIdx_ub enum n dm dm (le_refl dm)
        (fun pr hpr h2 => hub n (List.mem_cons_self _ _) pr hpr h2)
    rw [if_neg (not_lt_of_le hle)]
    have heq : bestIdx enum n dm = dm := le_antisymm hle (bestIdx_le enum n dm)
    rw [heq]
    exact ih (fun q hq pr hpr h2 => hub q (List.mem_cons_of_mem _ hq) pr hpr h2)

theorem hovered_fold_wins (enum : List (Nat × Uuid)) (m : Uuid) (dm : ℤ)
    (hdm : ∃ pr ∈ enum, pr.2 = m ∧ (pr.1 : ℤ) = dm)
    (hmub : ∀ pr ∈ enum, pr.2 = m → (pr.1 : ℤ) ≤ dm) :
    ∀ (cs : List Uuid), m ∈ cs →
    (∀ n ∈ cs, n = m ∨ ∀ pr ∈ enum, pr.2 = n → (pr.1 : ℤ) < dm) →
    ∀ (a : ℤ) (h : Option Uuid), a < dm →
    cs.foldl (fun acc node_id => hoveredNodeStep enum node_id acc) (a, h)
      = (dm, some m) := by
  intro cs
  induction cs with
  | nil => intro hm; exact absurd hm (List.not_mem_nil m)
  | cons n cs' ih =>
    intro hm hsub a h ha
    rw [List.foldl_cons, hoveredNodeStep_char]
    by_cases hn : n = m
    · subst hn
      obtain ⟨pr, hpr, hpr2, hpr1⟩ := hdm
      have hge : dm ≤ bestIdx enum n a := hpr1 ▸ bestIdx_ge_pos enum n a pr hpr hpr2
      have hle : bestIdx enum n a ≤ dm :=
        bestIdx_ub enum n a dm (le_of_lt ha) hmub
      have heq : bestIdx enum n a = dm := le_antisymm hle hge
      rw [heq, if_pos ha]
      exact hovered_fold_fixed enum cs' n dm
        (fun q hq pr' hpr' h2 => by
          rcases hsub q (List.mem_cons_of_mem _ hq) with hqm | hqlt
          · exact hmub pr' hpr' (hqm ▸ h2)
          · exact le_of_lt (hqlt pr' hpr' h2))
    · have hm' : m ∈ cs' := by
        rcases List.mem_cons.mp hm with h1 | h1
        · exact absurd h1.symm hn
        · exact h1
      have hnlt : ∀ pr ∈ enum, pr.2 = n → (pr.1 : ℤ) < dm := by
        rcases hsub n (List.mem_cons_self _ _) with h1 | h1
        · exact absurd h1 hn
        · exact h1
      have hblt : bestIdx enum n a < dm := by
        have : bestIdx enum n a ≤ dm - 1 :=
          bestIdx_ub enum n a (dm - 1) (by omega)
            (fun pr hpr h2 => by have := hnlt pr hpr h2; omega)
        omega
      exact ih hm' (fun q hq => hsub q (List.mem_cons_of_mem _ hq)) _ _ hblt

theorem occludedPinsBelow_mem (c : Context) (pin_ids : List Uuid) (rect : Rect)
    (pid : Uuid) (p : PinData) (L : List Uuid)
    (hmem : pid ∈ pin_ids) (hp : mapGet c.pins pid = some p)
    (hcont : rect.contains p.pos = true)
    (h : occludedPinsBelow c pin_ids rect = some L) : pid ∈ L := by
  induction pin_ids generalizing L with
  | nil => exact absurd hmem (List.not_mem_nil pid)
  | cons q rest ih =>
    simp only [occludedPinsBelow] at h
    cases hq : mapGet c.pins q with
    | none => rw [hq] at h; exact Option.noConfusion h
    | some qpin =>
      rw [hq] at h
      cases hrest : occludedPinsBelow c rest rect with
      | none => rw [hrest] at h; exact Option.noConfusion h
      | some acc =>
        rw [hrest] at h
        simp only [Option.some_bind, Option.map_some', Option.some.injEq] at h
        rcases List.mem_cons.mp hmem with hqp | hqp
        · subst hqp
          rw [hq] at hp
          cases hp
          rw [← h, if_pos hcont]
          exact List.mem_cons_self _ _
        · have hin : pid ∈ acc := ih acc hqp hrest
          rw [← h]
          by_cases hcq : rect.contains qpin.pos = true
          · rw [if_pos hcq]
            exact List.mem_cons_of_mem _ hin
          · rw [if_neg hcq]
            exact hin

theorem occludedAgainst_mem (c : Context) (node_below : Node) (highers : List Uuid)
    (bid pid : Uuid) (nb : Node) (p : PinData) (L : List Uuid)
    (hbid : bid ∈ highers) (hnb : mapGet c.nodes bid = some nb)
    (hpin : pid ∈ node_below.pin_ids) (hp : mapGet c.pins pid = some p)
    (hcont : nb.rect.contains p.pos = true)
    (h : occludedAgainst c node_below highers = some L) : pid ∈ L := by
  induction highers generalizing L with
  | nil => exact absurd hbid (List.not_mem_nil bid)
  | cons hid rest ih =>
    simp only [occludedAgainst] at h
    cases hh : mapGet c.nodes hid with
    | none => rw [hh] at h; exact Option.noConfusion h
    | some above =>
      rw [hh] at h
      simp only [Option.some_bind] at h
      cases hbel : occludedPinsBelow c node_below.pin_ids above.rect with
      | none => rw [hbel] at h; exact Option.noConfusion h
      | some l1 =>
        rw [hbel] at h
        cases hrest : occludedAgainst c node_below rest with
        | none => rw [hrest] at h; exact Option.noConfusion h
        | some l2 =>
          rw [hrest] at h
          simp only [Option.some_bind, Option.map_some', Option.some.injEq] at h
          rcases List.mem_cons.mp hbid with hb | hb
          · subst hb
            rw [hh] at hnb
            cases hnb
            have : pid ∈ l1 := occludedPinsBelow_mem c _ _ pid p l1 hpin hp hcont hbel
            rw [← h]
            exact List.mem_append_left _ this
          · have : pid ∈ l2 := ih l2 hb hrest
            rw [← h]
            exact List.mem_append_right _ this

theorem occludedScan_mem (c : Context) (aid bid pid : Uuid) (na nb : Node) (p : PinData)
    (ha : mapGet c.nodes aid = some na) (hb : mapGet c.nodes bid = some nb)
    (hpin : pid ∈ na.pin_ids) (hp : mapGet c.pins pid = some p)
    (hcont : nb.rect.contains p.pos = true) :
    ∀ (l1 rest : List Uuid) (L : List Uuid), bid ∈ rest →
    occludedScan c (l1 ++ aid :: rest) = some L → pid ∈ L := by
  intro l1
  induction l1 with
  | nil =>
    intro rest L hbid h
    cases rest with
    | nil => exact absurd hbid (List.not_mem_nil bid)
    | cons r0 rrest =>
      simp only [List.nil_append, occludedScan] at h
      rw [ha] at h
      simp only [Option.some_bind] at h
      cases hag : occludedAgainst c na (r0 :: rrest) with
      | none => rw [hag] at h; exact Option.noConfusion h
      | some lo1 =>
        rw [hag] at h
        cases hsc : occludedScan c (r0 :: rrest) with
        | none => rw [hsc] at h; exact Option.noConfusion h
        | some lo2 =>
          rw [hsc] at h
          simp only [Option.some_bind, Option.map_some', Option.some.injEq] at h
          rw [← h]
          exact List.mem_append_left _
            (occludedAgainst_mem c na (r0 :: rrest) bid pid nb p lo1 hbid hb hpin hp
              hcont hag)
  | cons x l1' ih =>
    intro rest L hbid h
    cases hl : l1' ++ aid :: rest with
    | nil => simp at hl
    | cons t ts =>
      rw [List.cons_append, hl] at h
      simp only [occludedScan] at h
      cases hx : mapGet c.nodes x with
      | none => rw [hx] at h; exact Option.noConfusion h
      | some below =>
        rw [hx] at h
        simp only [Option.some_bind] at h
        cases hag : occludedAgainst c below (t :: ts) with
        | none => rw [hag] at h; exact Option.noConfusion h
        | some lo1 =>
          rw [hag] at h
          cases hsc : occludedScan c (t :: ts) with
          | none => rw [hsc] at h; exact Option.noConfusion h
          | some lo2 =>
            rw [hsc] at h
            simp only [Option.some_bind, Option.map_some', Option.some.injEq] at h
            rw [← h]
            refine List.mem_append_right _ ?_
            exact ih rest lo2 hbid (by rw [hl]; exact hsc)

theorem hoveredPinFold_avoid (c : Context) (pid : Uuid)
    (hocc : pid ∈ c.occluded_pin_ids) :
    ∀ (pins : List (Uuid × PinData)) (acc : Option ℚ × Option Uuid),
    acc.2 ≠ some pid → (pins.foldl (hoveredPinStep c) acc).2 ≠ some pid := by
  intro pins
  induction pins with
  | nil => intro acc hacc; exact hacc
  | cons p rest ih =>
    intro acc hacc
    rw [List.foldl_cons]
    refine ih (hoveredPinStep c acc p) ?_
    unfold hoveredPinStep
    by_cases hskip : c.occluded_pin_ids.contains p.1
    · rw [if_pos hskip]
      exact hacc
    · have hne : p.1 ≠ pid := by
        intro he
        rw [he] at hskip
        exact hskip (List.elem_eq_true_of_mem hocc)
      rw [if_neg hskip]
      by_cases hd : (Pos2.sub p.2.pos c.mouse_pos).length_sq < c.style.pin_hover_radius ^ 2
      · rw [if_pos hd]
        cases hfst : acc.1 with
        | none =>
          simp only
          intro he
          exact hne (Option.some.injEq _ _ ▸ he)
        | some s =>
          simp only
          by_cases hlt : (Pos2.sub p.2.pos c.mouse_pos).length_sq < s
          · rw [if_pos hlt]
            intro he
            exact hne (Option.some.injEq _ _ ▸ he)
          · rw [if_neg hlt]
            exact hacc
      · rw [if_neg hd]
        exact hacc

/-- **C5**: with several nodes under the pointer, `resolve_hovered_node`
hovers the overlap candidate with the greatest depth-order index, and a pin
whose resolved position lies inside the rect of a node deeper in the depth
order than the pin's owner is collected by `resolve_occluded_pins` and can
never be chosen by `resolve_hovered_pin`. -/
theorem c5_hover_topmost_and_pin_occlusion (c : Context) (m n1 n2 : Uuid)
    (crest : List Uuid) (dm : ℤ)
    (hshape : c.node_ids_overlapping_with_mouse = n1 :: n2 :: crest)
    (hm : m ∈ c.node_ids_overlapping_with_mouse)
    (hdm : ∃ pr ∈ c.node_depth_order.enum, pr.2 = m ∧ (pr.1 : ℤ) = dm)
    (hmub : ∀ pr ∈ c.node_depth_order.enum, pr.2 = m → (pr.1 : ℤ) ≤ dm)
    (hstrict : ∀ n ∈ c.node_ids_overlapping_with_mouse, n ≠ m →
      ∀ pr ∈ c.node_depth_order.enum, pr.2 = n → (pr.1 : ℤ) < dm)
    (aid bid pid : Uuid) (na nb : Node) (p : PinData) (c1 : Context)
    (l1 rest : List Uuid)
    (hdepth : c.node_depth_order = l1 ++ aid :: rest) (hbid : bid ∈ rest)
    (hna : mapGet c.nodes aid = some na) (hnb : mapGet c.nodes bid = some nb)
    (hpin : pid ∈ na.pin_ids) (hp : mapGet c.pins pid = some p)
    (hcont : nb.rect.contains p.pos = true)
    (hocc : c.resolve_occluded_pins = some c1) :
    (c.resolve_hovered_node).hovered_node_id = some m
    ∧ (c1.resolve_hovered_pin).hovered_pin_id ≠ some pid := by
  constructor
  · have hdm0 : 0 ≤ dm := by
      obtain ⟨pr, _, _, hpr1⟩ := hdm
      rw [← hpr1]
      exact Int.ofNat_nonneg pr.1
    unfold Context.resolve_hovered_node
    rw [hshape]
    simp only
    have hwin := hovered_fold_wins c.node_depth_order.enum m dm hdm hmub
      (n1 :: n2 :: crest) (hshape ▸ hm)
      (fun n hn => by
        rcases Classical.em (n = m) with hnm | hnm
        · exact Or.inl hnm
        · exact Or.inr (hstrict n (hshape ▸ hn) hnm))
      (-1) c.hovered_node_id (by omega)
    rw [hwin]
  · unfold Context.resolve_occluded_pins at hocc
    cases hscan : occludedScan c c.node_depth_order with
    | none => rw [hscan] at hocc; exact Option.noConfusion hocc
    | some L =>
      rw [hscan] at hocc
      simp only [Option.map_some', Option.some.injEq] at hocc
      have hmemL : pid ∈ L := by
        rw [hdepth] at hscan
        exact occludedScan_mem c aid bid pid na nb p hna hnb hpin hp hcont l1 rest L
          hbid hscan
      have hoccl : pid ∈ c1.occluded_pin_ids := by
        rw [← hocc]
        exact hmemL
      unfold Context.resolve_hovered_pin
      simp only
      exact hoveredPinFold_avoid c1 pid hoccl c1.pins (none, none) (by simp)

theorem c5_hover_witness :
    (c5Ctx.node_ids_overlapping_with_mouse = 1 :: 2 :: []
      ∧ (2 : Uuid) ∈ c5Ctx.node_ids_overlapping_with_mouse
      ∧ (∃ pr ∈ c5Ctx.node_depth_order.enum, pr.2 = 2 ∧ (pr.1 : ℤ) = 1)
      ∧ (∀ pr ∈ c5Ctx.node_depth_order.enum, pr.2 = 2 → (pr.1 : ℤ) ≤ 1)
      ∧ (∀ n ∈ c5Ctx.node_ids_overlapping_with_mouse, n ≠ 2 →
          ∀ pr ∈ c5Ctx.node_depth_order.enum, pr.2 = n → (pr.1 : ℤ) < 1)
      ∧ c5Ctx.node_depth_order = [] ++ 1 :: [2]
      ∧ (2 : Uuid) ∈ [(2 : Uuid)]
      ∧ mapGet c5Ctx.nodes 1
          = some { Node.new with pin_ids := [7], rect := ⟨⟨0, 0⟩, ⟨10, 10⟩⟩ }
      ∧ mapGet c5Ctx.nodes 2 = some { Node.new with rect := ⟨⟨0, 0⟩, ⟨10, 10⟩⟩ }
      ∧ (7 : Uuid)
          ∈ ({ Node.new with pin_ids := [7], rect := ⟨⟨0, 0⟩, ⟨10, 10⟩⟩ } : Node).pin_ids
      ∧ mapGet c5Ctx.pins 7 = some { PinData.new with pos := ⟨5, 5⟩, parent_node_id := 1 }
      ∧ (⟨⟨0, 0⟩, ⟨10, 10⟩⟩ : Rect).contains (⟨5, 5⟩ : Pos2) = true
      ∧ c5Ctx.resolve_occluded_pins = some { c5Ctx with occluded_pin_ids := [7] })
    ∧ ((c5Ctx.resolve_hovered_node).hovered_node_id = some 2
      ∧ ({ c5Ctx with occluded_pin_ids := [7] }.resolve_hovered_pin).hovered_pin_id
          ≠ some 7) :=
  ⟨⟨rfl, by decide, by decide, by decide, by decide, rfl, by decide, rfl, rfl,
      by decide, rfl, by decide, by decide⟩,
    c5_hover_topmost_and_pin_occlusion c5Ctx 2 1 2 [] 1 rfl (by decide) (by decide)
      (by decide) (by decide) 1 2 7 _ _ _ _ [] [2] rfl (by decide) rfl rfl (by decide)
      rfl (by decide) (by decide)⟩

/-- **C6**: while box selection is active, after `click_interaction_update`
the selected node ids are exactly the in-use nodes whose rect intersects the
normalized selection rectangle spanned from the stored anchor
(`box_selection.min`) to the current pointer position. -/
theorem c6_box_selection_selects_intersecting_nodes (geom : Geometry) (c c' : Context)
    (ht : c.click_interaction_type = ClickInteractionType.BoxSelection)
    (h : c.click_interaction_update geom = some c') :
    ∀ id : Uuid, id ∈ c'.selected_node_ids ↔
      ∃ n : Node, (id, n) ∈ c.nodes ∧ n.in_use = true ∧
        (boxSelectionNormalize
            ⟨c.click_interaction_state.box_selection.min, c.mouse_pos⟩).intersects n.rect
          = true := by
  intro id
  unfold Context.click_interaction_update at h
  rw [ht] at h
  simp only [Option.map_eq_some'] at h
  obtain ⟨pr, hbox, hc'⟩ := h
  unfold Context.box_selector_update_selection at hbox
  simp only [Option.map_eq_some'] at hbox
  obtain ⟨sel_links, hloop, hpr⟩ := hbox
  have hsel : c'.selected_node_ids = pr.1.selected_node_ids := by
    rw [← hc']
    by_cases hr : pr.1.left_mouse_released
    · rw [if_pos hr]
    · rw [if_neg hr]
  rw [hsel, ← hpr]
  simp only [List.mem_map, List.mem_filter, Bool.and_eq_true, decide_eq_true_eq]
  constructor
  · rintro ⟨⟨nid, n⟩, ⟨hmem, hu, hint⟩, hfst⟩
    exact ⟨n, by rw [← hfst]; exact hmem, hu, hint⟩
  · rintro ⟨n, hmem, hu, hint⟩
    exact ⟨(id, n), ⟨hmem, hu, hint⟩, rfl⟩

theorem c6_box_selection_witness :
    (c6Ctx.click_interaction_type = ClickInteractionType.BoxSelection
      ∧ c6Ctx.click_interaction_update geomZero
        = some { c6Ctx with
            click_interaction_state :=
              { Context.empty.click_interaction_state with
                  box_selection := ⟨⟨0, 0⟩, ⟨5, 5⟩⟩ }
            selected_node_ids := [1]
            selected_link_ids := [] })
    ∧ ((1 : Uuid) ∈ ({ c6Ctx with
          click_interaction_state :=
            { Context.empty.click_interaction_state with
                box_selection := ⟨⟨0, 0⟩, ⟨5, 5⟩⟩ }
          selected_node_ids := [1]
          selected_link_ids := [] } : Context).selected_node_ids ↔
        ∃ n : Node, ((1 : Uuid), n) ∈ c6Ctx.nodes ∧ n.in_use = true ∧
          (boxSelectionNormalize
              ⟨c6Ctx.click_interaction_state.box_selection.min, c6Ctx.mouse_pos⟩).intersects
            n.rect = true) :=
  ⟨⟨rfl, by decide⟩,
    c6_box_selection_selects_intersecting_nodes geomZero c6Ctx _ rfl (by decide) 1⟩

theorem mapGet_mem {α : Type} (m : List (Uuid × α)) (k : Uuid) (v : α)
    (h : mapGet m k = some v) : (k, v) ∈ m := by
  unfold mapGet at h
  simp only [Option.map_eq_some'] at h
  obtain ⟨p, hp, hpv⟩ := h
  have hmem := List.mem_of_find?_eq_some hp
  have hkey := List.find?_some hp
  simp only [decide_eq_true_eq] at hkey
  obtain ⟨p1, p2⟩ := p
  simp only at hkey hpv
  rw [← hkey, ← hpv]
  exact hmem

theorem or_dropped_keeps_created_clear (x : Nat)
    (h : x &&& changeLinkCreated = 0) :
    (x ||| changeLinkDropped) &&& changeLinkCreated = 0 := by
  unfold changeLinkDropped changeLinkCreated at *
  apply Nat.eq_of_testBit_eq
  intro i
  have hx := congrArg (fun n => n.testBit i) h
  simp only [Nat.testBit_and, Nat.testBit_or, Nat.zero_testBit] at hx ⊢
  by_cases h4 : Nat.testBit 4 i = true
  · have hi : i = 2 := by
      by_contra hne
      have h2i : (2 : ℕ) ≠ i := fun he => hne he.symm
      have := Nat.testBit_two_pow_of_ne h2i
      rw [show (2 : ℕ) ^ 2 = 4 from by norm_num] at this
      rw [this] at h4
      exact Bool.noConfusion h4
    subst hi
    rw [h4] at hx
    simp only [Bool.and_true] at hx
    rw [show Nat.testBit 2 2 = false from by decide, h4, hx]
    rfl
  · rw [Bool.not_eq_true] at h4
    rw [h4]
    simp

theorem or_created_sets_flag (x : Nat) :
    (x ||| changeLinkCreated) &&& changeLinkCreated ≠ 0 := by
  unfold changeLinkCreated
  intro h
  have hx := congrArg (fun n => n.testBit 2) h
  simp only [Nat.testBit_and, Nat.testBit_or, Nat.zero_testBit] at hx
  rw [show Nat.testBit 4 2 = true from by decide] at hx
  simp at hx

theorem created_link_none (c : Context)
    (h : c.element_state_change &&& changeLinkCreated = 0) : c.created_link = none := by
  unfold Context.created_link
  rw [if_neg (fun hne => hne h)]

theorem link_creation_snap_change_frame (c c1 : Context)
    (hsnap : ∀ sid l, c.snap_link_id = some sid → mapGet c.links sid = some l →
      (l.start_pin_id = c.click_interaction_state.link_creation.start_pin_id
        ∧ some l.end_pin_id = c.click_interaction_state.link_creation.end_pin_id)
      ∨ (l.end_pin_id = c.click_interaction_state.link_creation.start_pin_id
        ∧ some l.start_pin_id = c.click_interaction_state.link_creation.end_pin_id))
    (h : c.link_creation_snap_change = some c1) :
    c1.pins = c.pins ∧ c1.hovered_pin_id = c.hovered_pin_id
      ∧ c1.element_state_change = c.element_state_change
      ∧ c1.click_interaction_state.link_creation.start_pin_id
          = c.click_interaction_state.link_creation.start_pin_id := by
  unfold Context.link_creation_snap_change at h
  simp only [] at h
  split_ifs at h with hcond
  · cases hs : c.snap_link_id with
    | none => rw [hs] at hcond; simp at hcond
    | some sid =>
      cases he2 : c.click_interaction_state.link_creation.end_pin_id with
      | none =>
        rw [he2] at hcond
        simp [Option.elim] at hcond
      | some epid =>
        rw [hs, he2] at h
        simp only [] at h
        unfold Context.begin_link_detach at h
        cases hl : mapGet c.links sid with
        | none => rw [hl] at h; exact Option.noConfusion h
        | some l =>
          rw [hl] at h
          simp only [Option.map_some', Option.some.injEq] at h
          have hstart : (if epid = l.start_pin_id then l.end_pin_id else l.start_pin_id)
              = c.click_interaction_state.link_creation.start_pin_id := by
            rcases hsnap sid l hs hl with ⟨hls, hle⟩ | ⟨hle2, hls2⟩
            · rw [he2] at hle
              have hle' : l.end_pin_id = epid := Option.some_injective _ hle
              by_cases hd : epid = l.start_pin_id
              · rw [if_pos hd, hle', hd, hls]
              · rw [if_neg hd, hls]
            · rw [he2] at hls2
              have hls' : l.start_pin_id = epid := Option.some_injective _ hls2
              by_cases hd : epid = l.start_pin_id
              · rw [if_pos hd, hle2]
              · exact absurd hls'.symm hd
          rw [← h]
          exact ⟨rfl, rfl, rfl, hstart⟩
  · cases h
    exact ⟨rfl, rfl, rfl, rfl⟩

theorem link_creation_tail_created (c1 c' : Context) (ss : Bool) (dup : Option Uuid)
    (hflag1 : c1.element_state_change &&& changeLinkCreated = 0)
    (h : c1.link_creation_tail ss dup = some c') :
    ∀ s e b, c'.created_link = some (s, e, b) →
      ss = true ∧ c'.pins = c1.pins
      ∧ ∃ h0 sp, c1.hovered_pin_id = some h0
        ∧ mapGet c1.pins c1.click_interaction_state.link_creation.start_pin_id = some sp
        ∧ ((sp.kind = AttributeKind.Output
            ∧ s = c1.click_interaction_state.link_creation.start_pin_id ∧ e = h0)
          ∨ (sp.kind ≠ AttributeKind.Output
            ∧ s = h0 ∧ e = c1.click_interaction_state.link_creation.start_pin_id)) := by
  intro s e b hcr
  unfold Context.link_creation_tail at h
  simp only [bind, Option.bind_eq_some] at h
  obtain ⟨sp, hsp, par, hpar, h⟩ := h
  cases hh1 : c1.hovered_pin_id with
  | none =>
    rw [hh1] at h
    cases ss with
    | true =>
      rw [if_pos rfl] at h
      simp only [Option.none_bind] at h
      exact Option.noConfusion h
    | false =>
      rw [if_neg Bool.false_ne_true] at h
      simp only [Option.some_bind, Bool.false_and] at h
      repeat rw [if_neg Bool.false_ne_true] at h
      by_cases hr : c1.left_mouse_released = true
      · rw [if_pos hr] at h
        simp only [Bool.not_false, if_pos rfl] at h
        by_cases hft : c1.click_interaction_state.link_creation.link_creation_type
            = LinkCreationType.FromDetach
        · rw [if_pos hft] at h
          cases h
          exact absurd (hcr.symm.trans
            (created_link_none _ (or_dropped_keeps_created_clear _ hflag1)))
            (fun he => Option.noConfusion he)
        · rw [if_neg hft] at h
          cases h
          exact absurd (hcr.symm.trans
            (created_link_none _ (or_dropped_keeps_created_clear _ hflag1)))
            (fun he => Option.noConfusion he)
      · rw [if_neg hr] at h
        cases h
        exact absurd (hcr.symm.trans (created_link_none _ hflag1))
          (fun he => Option.noConfusion he)
  | some h0 =>
    rw [hh1] at h
    cases ss with
    | false =>
      rw [if_neg Bool.false_ne_true] at h
      simp only [Option.some_bind, Bool.false_and, Option.map_eq_some',
        Option.bind_eq_some] at h
      obtain ⟨onv, ⟨hp, hhp, honv⟩, h⟩ := h
      repeat rw [if_neg Bool.false_ne_true] at h
      by_cases hr : c1.left_mouse_released = true
      · rw [if_pos hr] at h
        simp only [Bool.not_false, if_pos rfl] at h
        by_cases hft : c1.click_interaction_state.link_creation.link_creation_type
            = LinkCreationType.FromDetach
        · rw [if_pos hft] at h
          cases h
          exact absurd (hcr.symm.trans
            (created_link_none _ (or_dropped_keeps_created_clear _ hflag1)))
            (fun he => Option.noConfusion he)
        · rw [if_neg hft] at h
          cases h
          exact absurd (hcr.symm.trans
            (created_link_none _ (or_dropped_keeps_created_clear _ hflag1)))
            (fun he => Option.noConfusion he)
      · rw [if_neg hr] at h
        cases h
        exact absurd (hcr.symm.trans (created_link_none _ hflag1))
          (fun he => Option.noConfusion he)
    | true =>
      repeat rw [if_pos rfl] at h
      simp only [Option.bind_eq_some, Option.map_eq_some', Bool.true_and] at h
      obtain ⟨hp, hhp, hpn, hhpn, u2, hu2, onv, ⟨hp2, hhp2, honv⟩, h⟩ := h
      by_cases hE : ((c1.left_mouse_released || onv)
          && dup.isNone
          && (!c1.left_mouse_released
            && decide (c1.click_interaction_state.link_creation.end_pin_id
              = some h0))) = true
      · rw [if_pos hE] at h
        cases h
        exact absurd (hcr.symm.trans (created_link_none _ hflag1))
          (fun he => Option.noConfusion he)
      · rw [if_neg hE] at h
        by_cases hCL : ((c1.left_mouse_released || onv) && dup.isNone) = true
        · rw [if_pos hCL] at h
          by_cases hr : c1.left_mouse_released = true
          · rw [if_pos hr] at h
            rw [hr] at h
            simp only [Bool.true_or, Bool.not_true, Bool.false_eq_true, if_false] at h
            cases h
            refine ⟨rfl, rfl, h0, sp, rfl, hsp, ?_⟩
            revert hcr
            unfold Context.created_link
            rw [if_pos (or_created_sets_flag _)]
            simp only []
            rw [hsp]
            simp only []
            by_cases hk : sp.kind = AttributeKind.Output
            · rw [if_neg (fun hne => hne hk)]
              intro hcr
              simp only [Option.some.injEq, Prod.mk.injEq] at hcr
              exact Or.inl ⟨hk, hcr.1.symm, hcr.2.1.symm⟩
            · rw [if_pos hk]
              intro hcr
              simp only [Option.some.injEq, Prod.mk.injEq] at hcr
              exact Or.inr ⟨hk, hcr.1.symm, hcr.2.1.symm⟩
          · rw [if_neg hr] at h
            cases h
            refine ⟨rfl, rfl, h0, sp, rfl, hsp, ?_⟩
            revert hcr
            unfold Context.created_link
            rw [if_pos (or_created_sets_flag _)]
            simp only []
            rw [hsp]
            simp only []
            by_cases hk : sp.kind = AttributeKind.Output
            · rw [if_neg (fun hne => hne hk)]
              intro hcr
              simp only [Option.some.injEq, Prod.mk.injEq] at hcr
              exact Or.inl ⟨hk, hcr.1.symm, hcr.2.1.symm⟩
            · rw [if_pos hk]
              intro hcr
              simp only [Option.some.injEq, Prod.mk.injEq] at hcr
              exact Or.inr ⟨hk, hcr.1.symm, hcr.2.1.symm⟩
        · rw [if_neg hCL] at h
          by_cases hr : c1.left_mouse_released = true
          · rw [if_pos hr] at h
            by_cases hncl : (!(c1.left_mouse_released || onv)) = true
            · rw [if_pos hncl] at h
              by_cases hft : c1.click_interaction_state.link_creation.link_creation_type
                  = LinkCreationType.FromDetach
              · rw [if_pos hft] at h
                cases h
                exact absurd (hcr.symm.trans
                  (created_link_none _ (or_dropped_keeps_created_clear _ hflag1)))
                  (fun he => Option.noConfusion he)
              · rw [if_neg hft] at h
                cases h
                exact absurd (hcr.symm.trans
                  (created_link_none _ (or_dropped_keeps_created_clear _ hflag1)))
                  (fun he => Option.noConfusion he)
            · rw [if_neg hncl] at h
              cases h
              exact absurd (hcr.symm.trans (created_link_none _ hflag1))
                (fun he => Option.noConfusion he)
          · rw [if_neg hr] at h
            cases h
            exact absurd (hcr.symm.trans (created_link_none _ hflag1))
              (fun he => Option.noConfusion he)

/-- **C2**: whenever `created_link` reports a pair after the `LinkCreation`
interaction update, the reported start pin is `Output`-kind and the two pins
have different kinds and different owning nodes.  The hypotheses are frame
invariants of every reachable state at this point: every stored pin was
declared through `add_attribute` with a kind other than `None`; the
`LinkCreated` flag is clear (`begin_frame` resets it and only this update
sets it); and `snap_link_id` — reset each `begin_frame` — was recorded by
`add_link` only for a link matching the in-progress creation pair, in either
orientation. -/
theorem c2_created_link_canonical (c c' : Context)
    (hwk : ∀ b ∈ c.pins, b.2.kind ≠ AttributeKind.None)
    (hflag : c.element_state_change &&& changeLinkCreated = 0)
    (hsnap : ∀ sid l, c.snap_link_id = some sid → mapGet c.links sid = some l →
      (l.start_pin_id = c.click_interaction_state.link_creation.start_pin_id
        ∧ some l.end_pin_id = c.click_interaction_state.link_creation.end_pin_id)
      ∨ (l.end_pin_id = c.click_interaction_state.link_creation.start_pin_id
        ∧ some l.start_pin_id = c.click_interaction_state.link_creation.end_pin_id))
    (h : c.link_creation_update = some c') :
    ∀ s e fromSnap, c'.created_link = some (s, e, fromSnap) →
      ∃ sp ep, mapGet c'.pins s = some sp ∧ mapGet c'.pins e = some ep ∧
        sp.kind = AttributeKind.Output ∧ ep.kind ≠ sp.kind ∧
        ep.parent_node_id ≠ sp.parent_node_id := by
  intro s e fromSnap hcr
  unfold Context.link_creation_update at h
  simp only [] at h
  cases hch : c.hovered_pin_id with
  | none =>
    rw [hch] at h
    simp only [] at h
    simp only [Option.some_bind, bind, Option.bind_eq_some] at h
    obtain ⟨c1, hc1, htail⟩ := h
    obtain ⟨hpins, hhov, hesc, hstart⟩ := link_creation_snap_change_frame c c1 hsnap hc1
    have hflag1 : c1.element_state_change &&& changeLinkCreated = 0 := by
      rw [hesc]; exact hflag
    obtain ⟨hsst, _⟩ :=
      link_creation_tail_created c1 c' false _ hflag1 htail s e fromSnap hcr
    exact Bool.noConfusion hsst
  | some h0x =>
    rw [hch] at h
    simp only [] at h
    simp only [bind, Option.bind_eq_some] at h
    obtain ⟨sp0, hsp0, ss, hsnapv, c1, hc1, htail⟩ := h
    obtain ⟨hpins, hhov, hesc, hstart⟩ := link_creation_snap_change_frame c c1 hsnap hc1
    have hflag1 : c1.element_state_change &&& changeLinkCreated = 0 := by
      rw [hesc]; exact hflag
    obtain ⟨hsst, hpins', h0, sp, hh0, hspget, hcases⟩ :=
      link_creation_tail_created c1 c' ss _ hflag1 htail s e fromSnap hcr
    subst hsst
    rw [hhov, hch] at hh0
    have hh0x : h0x = h0 := Option.some_injective _ hh0
    subst hh0x
    rw [hpins, hstart] at hspget
    have hsp0sp : sp0 = sp := Option.some_injective _ (hsp0.symm.trans hspget)
    subst hsp0sp
    unfold Context.should_link_snap_to_pin at hsnapv
    simp only [Option.map_eq_some'] at hsnapv
    obtain ⟨ep0, hep0, hif⟩ := hsnapv
    have hpne : sp0.parent_node_id ≠ ep0.parent_node_id := by
      intro hpe
      rw [if_pos hpe] at hif
      exact Bool.noConfusion hif
    rw [if_neg hpne] at hif
    have hkne : sp0.kind ≠ ep0.kind := by
      intro hke
      rw [if_pos hke] at hif
      exact Bool.noConfusion hif
    have hspk : sp0.kind ≠ AttributeKind.None :=
      hwk _ (mapGet_mem _ _ _ hspget)
    have hepk : ep0.kind ≠ AttributeKind.None :=
      hwk _ (mapGet_mem _ _ _ hep0)
    have hcp : c'.pins = c.pins := hpins'.trans hpins
    rcases hcases with ⟨hk, hs, he⟩ | ⟨hk, hs, he⟩
    · subst hs; subst he
      refine ⟨sp0, ep0, ?_, ?_, hk, ?_, Ne.symm hpne⟩
      · rw [hcp, hstart]; exact hspget
      · rw [hcp]; exact hep0
      · exact Ne.symm hkne
    · subst hs; subst he
      have hspIn : sp0.kind = AttributeKind.Input := by
        cases hkk : sp0.kind
        · exact absurd hkk hspk
        · rfl
        · exact absurd hkk hk
      have hepOut : ep0.kind = AttributeKind.Output := by
        cases hkk : ep0.kind
        · exact absurd hkk hepk
        · exact absurd (hspIn.trans hkk.symm) hkne
        · rfl
      refine ⟨ep0, sp0, ?_, ?_, hepOut, ?_, hpne⟩
      · rw [hcp]; exact hep0
      · rw [hcp, hstart]; exact hspget
      · rw [hspIn, hepOut]
        exact fun hx => AttributeKind.noConfusion hx

theorem c2_created_link_canonical_witness :
    ∃ sp ep, mapGet c2CtxAfter.pins 10 = some sp ∧ mapGet c2CtxAfter.pins 20 = some ep ∧
      sp.kind = AttributeKind.Output ∧ ep.kind ≠ sp.kind ∧
      ep.parent_node_id ≠ sp.parent_node_id :=
  c2_created_link_canonical c2Ctx c2CtxAfter (by decide) (by decide)
    (fun sid l hs _ => Option.noConfusion hs) rfl 10 20 false rfl

theorem hoveredLinkStep_snd (geom : Geometry) (c : Context)
    (acc : Option ℚ × Option Uuid) (pr : Uuid × LinkData) :
    (hoveredLinkStep geom c acc pr).2 = acc.2
    ∨ ((hoveredLinkStep geom c acc pr).2 = some pr.1
        ∧ mapContains c.pins pr.2.start_pin_id = true
        ∧ mapContains c.pins pr.2.end_pin_id = true) := by
  unfold hoveredLinkStep
  cases hs : mapGet c.pins pr.2.start_pin_id with
  | none => exact Or.inl rfl
  | some sp =>
    cases he : mapGet c.pins pr.2.end_pin_id with
    | none => exact Or.inl rfl
    | some ep =>
      have hcs : mapContains c.pins pr.2.start_pin_id = true := by
        unfold mapContains; rw [hs]; rfl
      have hce : mapContains c.pins pr.2.end_pin_id = true := by
        unfold mapContains; rw [he]; rfl
      simp only []
      cases hacc : acc.1 with
      | none =>
        simp only []
        split_ifs <;> first | exact Or.inr ⟨rfl, hcs, hce⟩ | exact Or.inl rfl
      | some s =>
        simp only []
        split_ifs <;> first | exact Or.inr ⟨rfl, hcs, hce⟩ | exact Or.inl rfl

theorem hoveredLinkFold_sound (geom : Geometry) (c : Context)
    (links : List (Uuid × LinkData)) (acc : Option ℚ × Option Uuid) (lid : Uuid)
    (h : (links.foldl (hoveredLinkStep geom c) acc).2 = some lid) :
    acc.2 = some lid
    ∨ ∃ l, (lid, l) ∈ links
        ∧ mapContains c.pins l.start_pin_id = true
        ∧ mapContains c.pins l.end_pin_id = true := by
  induction links generalizing acc with
  | nil => exact Or.inl h
  | cons pr rest ih =>
    rw [List.foldl_cons] at h
    rcases ih _ h with hacc | ⟨l, hl, h1, h2⟩
    · rcases hoveredLinkStep_snd geom c acc pr with heq | ⟨heq, h1, h2⟩
      · exact Or.inl (heq.symm.trans hacc)
      · have hlid : pr.1 = lid := Option.some_injective _ (heq.symm.trans hacc)
        subst hlid
        exact Or.inr ⟨pr.2, Prod.mk.eta ▸ List.mem_cons_self pr rest, h1, h2⟩
    · exact Or.inr ⟨l, List.mem_cons_of_mem _ hl, h1, h2⟩

/-- **C3** (amended): link hover resolution only ever reports a link both of
whose pins are present, and `draw_link` skips a link with a missing pin
before emitting anything, leaving the state unchanged.  (The totality half of
the original claim is refuted separately: `click_interaction_update` in the
`LinkCreation` state unwraps the recorded start pin unconditionally.) -/
theorem c3_hover_and_draw_skip_missing_pins (geom : Geometry) (c : Context) :
    (∀ lid, (c.resolve_hovered_link geom).hovered_link_id = some lid →
      ∃ l, (lid, l) ∈ c.links
        ∧ mapContains c.pins l.start_pin_id = true
        ∧ mapContains c.pins l.end_pin_id = true)
    ∧ (∀ lid link, mapGet c.links lid = some link →
        (mapContains c.pins link.start_pin_id = false
          ∨ mapContains c.pins link.end_pin_id = false) →
        c.draw_link geom lid = some (c, false)) := by
  constructor
  · intro lid h
    unfold Context.resolve_hovered_link at h
    simp only [] at h
    rcases hoveredLinkFold_sound geom c c.links (none, none) lid h with h0 | hr
    · exact Option.noConfusion h0
    · exact hr
  · intro lid link hl hmiss
    unfold Context.draw_link
    rw [hl]
    simp only []
    have hd : ¬ link.in_use ∨ ¬ mapContains c.pins link.start_pin_id
        ∨ ¬ mapContains c.pins link.end_pin_id := by
      rcases hmiss with h | h
      · exact Or.inr (Or.inl (fun hc => Bool.noConfusion (h.symm.trans hc)))
      · exact Or.inr (Or.inr (fun hc => Bool.noConfusion (h.symm.trans hc)))
    rw [if_pos hd]

theorem c3_skip_witness :
    c3DrawCtx.draw_link geomZero 5 = some (c3DrawCtx, false) :=
  (c3_hover_and_draw_skip_missing_pins geomZero c3DrawCtx).2 5
    { in_use := true, start_pin_id := 1, end_pin_id := 2 } rfl (Or.inl rfl)

/-- Refutes the totality half of the original C3: with the creation start
pin missing from the store, the interaction update panics (`none` models the
`pins.get(..).unwrap()` at lib.rs line 1121) instead of skipping. -/
theorem c3_interaction_update_panics :
    Context.click_interaction_update geomZero c3PanicCtx = none := rfl

/-- **C7**: pressing the primary button while a link is hovered, when either
the hovered endpoint pin carries the detach-on-drag flag (the in-progress
creation path) or the detach modifier is held (in which case the pivot is
the endpoint nearer the pointer), marks the link detached, excludes it from
the frame's drawing (the emitted flag is `false`), and puts the context in
`LinkCreation` mode started from the link's other endpoint. -/
theorem c7_press_detaches_hovered_link (geom : Geometry) (c : Context)
    (lid dpin : Uuid) (link : LinkData)
    (hl : mapGet c.links lid = some link)
    (huse : link.in_use = true)
    (hcs : mapContains c.pins link.start_pin_id = true)
    (hce : mapContains c.pins link.end_pin_id = true)
    (hhov : c.hovered_link_id = some lid)
    (hbox : c.click_interaction_type ≠ ClickInteractionType.BoxSelection)
    (hpress : c.left_mouse_pressed = true)
    (hbranch :
      (c.click_interaction_type = ClickInteractionType.LinkCreation
        ∧ c.hovered_pin_flags &&& flagLinkDetachWithDragClick ≠ 0
        ∧ c.hovered_pin_id = some dpin
        ∧ (dpin = link.start_pin_id ∨ dpin = link.end_pin_id))
      ∨ (c.click_interaction_type ≠ ClickInteractionType.LinkCreation
        ∧ c.link_detach_with_modifier_click = true
        ∧ ∃ sp ep, mapGet c.pins link.start_pin_id = some sp
            ∧ mapGet c.pins link.end_pin_id = some ep
            ∧ dpin = (if (Pos2.sub sp.pos c.mouse_pos).length_sq
                  < (Pos2.sub ep.pos c.mouse_pos).length_sq
                then link.start_pin_id else link.end_pin_id))) :
    ∃ c1, c.draw_link geom lid = some (c1, false)
      ∧ c1.detached_link_id = some lid
      ∧ c1.click_interaction_type = ClickInteractionType.LinkCreation
      ∧ c1.click_interaction_state.link_creation.start_pin_id
          = (if dpin = link.start_pin_id then link.end_pin_id else link.start_pin_id) := by
  unfold Context.draw_link
  rw [hl]
  simp only []
  have hnskip : ¬ (¬ link.in_use ∨ ¬ mapContains c.pins link.start_pin_id
      ∨ ¬ mapContains c.pins link.end_pin_id) := by
    intro hx
    rcases hx with hx | hx | hx
    · exact hx huse
    · exact hx hcs
    · exact hx hce
  rw [if_neg hnskip]
  rw [if_pos ⟨⟨hhov, hbox⟩, hpress⟩]
  unfold Context.begin_link_interaction
  rw [hl]
  simp only [Option.some_bind]
  rcases hbranch with ⟨htype, hflag, hpin, _⟩ | ⟨htype, hmod, sp, ep, hsp, hep, hdpin⟩
  · rw [if_pos htype, if_pos hflag, hpin]
    simp only []
    unfold Context.begin_link_detach
    rw [hl]
    simp only [Option.map_some', Option.some_bind]
    rw [if_pos trivial]
    exact ⟨_, rfl, rfl, htype, rfl⟩
  · rw [if_neg htype, if_pos hmod, hsp, hep]
    simp only []
    unfold Context.begin_link_detach
    simp only []
    rw [hl]
    simp only [Option.map_some', Option.some_bind]
    rw [if_pos trivial]
    refine ⟨_, rfl, rfl, rfl, ?_⟩
    rw [hdpin]

theorem c7_press_detaches_witness :
    ∃ c1, c7Ctx.draw_link geomZero 5 = some (c1, false)
      ∧ c1.detached_link_id = some 5
      ∧ c1.click_interaction_type = ClickInteractionType.LinkCreation
      ∧ c1.click_interaction_state.link_creation.start_pin_id
          = (if (20 : Uuid) = 10 then 20 else 10) :=
  c7_press_detaches_hovered_link geomZero c7Ctx 5 20
    { in_use := true, start_pin_id := 10, end_pin_id := 20 }
    rfl rfl rfl rfl rfl (by decide) rfl
    (Or.inl ⟨rfl, by decide, rfl, Or.inr rfl⟩)

theorem keyLt_asymm (a b : ℤ × ℚ) (h : keyLt a b) : ¬ keyLt b a := by
  unfold keyLt at h ⊢
  rcases h with h | ⟨h1, h2⟩
  · rintro (h' | ⟨h1', h2'⟩)
    · omega
    · omega
  · rintro (h' | ⟨h1', h2'⟩)
    · omega
    · linarith

theorem not_keyLt_trans (a b c : ℤ × ℚ) (h1 : ¬ keyLt a b) (h2 : ¬ keyLt b c) :
    ¬ keyLt a c := by
  unfold keyLt at h1 h2 ⊢
  push_neg at h1 h2
  obtain ⟨h1a, h1b⟩ := h1
  obtain ⟨h2a, h2b⟩ := h2
  rintro (h | ⟨he, hq⟩)
  · omega
  · have hba : b.1 = a.1 := by omega
    have hq2 : b.2 ≤ a.2 := h1b hba.symm
    have hq3 : c.2 ≤ b.2 := h2b (by omega)
    linarith

theorem insertFanEntry_mem (x z : Uuid × Vec2) (l : List (Uuid × Vec2)) :
    z ∈ insertFanEntry x l ↔ z = x ∨ z ∈ l := by
  induction l with
  | nil => simp [insertFanEntry]
  | cons y ys ih =>
    unfold insertFanEntry
    split_ifs with h
    · simp only [List.mem_cons, ih]
      tauto
    · simp only [List.mem_cons]

theorem insertFanEntry_pairwise (x : Uuid × Vec2) (l : List (Uuid × Vec2))
    (hl : l.Pairwise (fun a b => ¬ keyLt (angleKey a.2) (angleKey b.2))) :
    (insertFanEntry x l).Pairwise (fun a b => ¬ keyLt (angleKey a.2) (angleKey b.2)) := by
  induction l with
  | nil => simp [insertFanEntry]
  | cons y ys ih =>
    rcases List.pairwise_cons.mp hl with ⟨hy, hys⟩
    unfold insertFanEntry
    split_ifs with h
    · refine List.pairwise_cons.mpr ⟨?_, ih hys⟩
      intro z hz
      rcases (insertFanEntry_mem x z ys).mp hz with rfl | hzys
      · exact keyLt_asymm _ _ h
      · exact hy z hzys
    · refine List.pairwise_cons.mpr ⟨?_, hl⟩
      intro z hz
      rcases List.mem_cons.mp hz with rfl | hzys
      · exact h
      · exact not_keyLt_trans _ _ _ h (hy z hzys)

theorem sortFanEntries_pairwise (l : List (Uuid × Vec2)) :
    (sortFanEntries l).Pairwise (fun a b => ¬ keyLt (angleKey a.2) (angleKey b.2)) := by
  induction l with
  | nil => simp [sortFanEntries]
  | cons x xs ih => exact insertFanEntry_pairwise _ _ ih

theorem sortFanEntries_mem (z : Uuid × Vec2) (l : List (Uuid × Vec2)) :
    z ∈ sortFanEntries l ↔ z ∈ l := by
  induction l with
  | nil => simp [sortFanEntries]
  | cons x xs ih =>
    unfold sortFanEntries
    rw [insertFanEntry_mem]
    simp [ih]

theorem countP_insertFanEntry (p : Uuid × Vec2 → Bool) (x : Uuid × Vec2)
    (l : List (Uuid × Vec2)) :
    (insertFanEntry x l).countP p = l.countP p + (if p x then 1 else 0) := by
  induction l with
  | nil => simp [insertFanEntry, List.countP_cons]
  | cons y ys ih =>
    unfold insertFanEntry
    by_cases h : keyLt (angleKey x.2) (angleKey y.2)
    · rw [if_pos h]
      simp only [List.countP_cons, ih]
      omega
    · rw [if_neg h]
      simp only [List.countP_cons]

theorem countP_sortFanEntries (p : Uuid × Vec2 → Bool) (l : List (Uuid × Vec2)) :
    (sortFanEntries l).countP p = l.countP p := by
  induction l with
  | nil => rfl
  | cons x xs ih =>
    unfold sortFanEntries
    rw [countP_insertFanEntry, ih, List.countP_cons]

theorem listPosition_some_exists {α : Type} (p : α → Bool) (l : List α) (i : Nat)
    (h : listPosition p l = some i) : ∃ a ∈ l, p a = true := by
  induction l generalizing i with
  | nil => exact Option.noConfusion h
  | cons x xs ih =>
    unfold listPosition at h
    split_ifs at h with hx
    · exact ⟨x, List.mem_cons_self _ _, hx⟩
    · simp only [Option.map_eq_some'] at h
      obtain ⟨j, hj, _⟩ := h
      obtain ⟨a, ha, hpa⟩ := ih j hj
      exact ⟨a, List.mem_cons_of_mem _ ha, hpa⟩

theorem insertFanEntry_self_pos (x : Uuid × Vec2) (s : List (Uuid × Vec2))
    (hs : s.Pairwise (fun a b => ¬ keyLt (angleKey a.2) (angleKey b.2)))
    (hids : ∀ pr ∈ s, pr.1 ≠ x.1) :
    listPosition (fun pr => pr.1 = x.1) (insertFanEntry x s)
      = some (s.countP (fun pr => decide (keyLt (angleKey x.2) (angleKey pr.2)))) := by
  induction s with
  | nil => simp [insertFanEntry, listPosition]
  | cons y ys ih =>
    rcases List.pairwise_cons.mp hs with ⟨hy, hys⟩
    have hxy : y.1 ≠ x.1 := hids y (List.mem_cons_self _ _)
    unfold insertFanEntry
    by_cases h : keyLt (angleKey x.2) (angleKey y.2)
    · rw [if_pos h]
      unfold listPosition
      rw [if_neg (by simpa using hxy)]
      rw [ih hys (fun pr hpr => hids pr (List.mem_cons_of_mem _ hpr))]
      rw [List.countP_cons]
      simp only [Option.map_some']
      rw [if_pos (by simpa using h)]
    · rw [if_neg h]
      unfold listPosition
      rw [if_pos (by simp)]
      have hz : ∀ z ∈ y :: ys,
          ¬ (fun pr => decide (keyLt (angleKey x.2) (angleKey pr.2))) z = true := by
        intro z hzm
        rcases List.mem_cons.mp hzm with rfl | hzys
        · simpa using h
        · simpa using not_keyLt_trans _ _ _ h (hy z hzys)
      rw [List.countP_eq_zero.mpr hz]

theorem insertFanEntry_other_pos (y x : Uuid × Vec2) (s : List (Uuid × Vec2)) (i : Nat)
    (hs : s.Pairwise (fun a b => ¬ keyLt (angleKey a.2) (angleKey b.2)))
    (hxy : y.1 ≠ x.1)
    (hvec : ∀ pr ∈ s, pr.1 = x.1 → pr.2 = x.2)
    (hfound : listPosition (fun pr => pr.1 = x.1) s = some i) :
    listPosition (fun pr => pr.1 = x.1) (insertFanEntry y s)
      = some (if keyLt (angleKey y.2) (angleKey x.2) then i else i + 1) := by
  induction s generalizing i with
  | nil => exact absurd hfound (by simp [listPosition])
  | cons z zs ih =>
    rcases List.pairwise_cons.mp hs with ⟨hz, hzs⟩
    unfold insertFanEntry
    by_cases h : keyLt (angleKey y.2) (angleKey z.2)
    · rw [if_pos h]
      unfold listPosition at hfound ⊢
      by_cases hzx : z.1 = x.1
      · rw [if_pos (by simpa using hzx)] at hfound
        have hi : i = 0 := (Option.some_injective _ hfound).symm
        subst hi
        have hzv : z.2 = x.2 := hvec z (List.mem_cons_self _ _) hzx
        rw [if_pos (by simpa using hzx)]
        rw [if_pos (hzv ▸ h)]
      · rw [if_neg (by simpa using hzx)] at hfound
        simp only [Option.map_eq_some'] at hfound
        obtain ⟨j, hj, hji⟩ := hfound
        rw [if_neg (by simpa using hzx)]
        rw [ih j hzs (fun pr hpr hpx => hvec pr (List.mem_cons_of_mem _ hpr) hpx) hj]
        simp only [Option.map_some', Option.some.injEq]
        by_cases hk : keyLt (angleKey y.2) (angleKey x.2)
        · rw [if_pos hk, if_pos hk]
          omega
        · rw [if_neg hk, if_neg hk]
          omega
    · rw [if_neg h]
      have hky : ¬ keyLt (angleKey y.2) (angleKey x.2) := by
        obtain ⟨pr, hprm, hprx⟩ := listPosition_some_exists _ _ _ hfound
        have hprx' : pr.1 = x.1 := by simpa using hprx
        have hprv : pr.2 = x.2 := hvec pr hprm hprx'
        rcases List.mem_cons.mp hprm with rfl | hm
        · exact hprv ▸ h
        · exact not_keyLt_trans _ _ _ h (hprv ▸ hz pr hm)
      rw [if_neg hky]
      unfold listPosition
      rw [if_neg (by simpa using hxy)]
      rw [hfound]
      rfl

theorem fanPosition_append (x : Uuid × Vec2) (others prov : List (Uuid × Vec2))
    (hothers : ∀ pr ∈ others, pr.1 ≠ x.1) (hprov : ∀ pr ∈ prov, pr.1 ≠ x.1) :
    fanPosition x.1 (others ++ x :: prov)
      = some (others.countP
            (fun pr => ! decide (keyLt (angleKey pr.2) (angleKey x.2)))
          + prov.countP (fun pr => decide (keyLt (angleKey x.2) (angleKey pr.2)))) := by
  unfold fanPosition
  induction others with
  | nil =>
    rw [List.nil_append]
    rw [show sortFanEntries (x :: prov) = insertFanEntry x (sortFanEntries prov) from rfl]
    rw [insertFanEntry_self_pos x _ (sortFanEntries_pairwise prov)
      (fun pr hpr => hprov pr ((sortFanEntries_mem _ _).mp hpr))]
    rw [countP_sortFanEntries]
    simp [List.countP_nil]
  | cons y rest ih =>
    have hrest := ih (fun pr hpr => hothers pr (List.mem_cons_of_mem _ hpr))
    rw [show (y :: rest) ++ x :: prov = y :: (rest ++ x :: prov) from rfl]
    rw [show sortFanEntries (y :: (rest ++ x :: prov))
        = insertFanEntry y (sortFanEntries (rest ++ x :: prov)) from rfl]
    have hvec : ∀ pr ∈ sortFanEntries (rest ++ x :: prov), pr.1 = x.1 → pr.2 = x.2 := by
      intro pr hpr hpx
      have hm := (sortFanEntries_mem _ _).mp hpr
      rcases List.mem_append.mp hm with hm1 | hm1
      · exact absurd hpx (hothers pr (List.mem_cons_of_mem _ hm1))
      · rcases List.mem_cons.mp hm1 with rfl | hm2
        · rfl
        · exact absurd hpx (hprov pr hm2)
    rw [insertFanEntry_other_pos y x _ _ (sortFanEntries_pairwise _)
      (hothers y (List.mem_cons_self _ _)) hvec hrest]
    rw [List.countP_cons]
    by_cases hk : keyLt (angleKey y.2) (angleKey x.2)
    · rw [if_pos hk]
      rw [if_neg (by simpa using hk)]
      simp only [Option.some.injEq]
      omega
    · rw [if_neg hk]
      rw [if_pos (by simpa using hk)]
      simp only [Option.some.injEq]
      omega

theorem siblingFanEntries_ids (links : List (Uuid × LinkData))
    (pins : List (Uuid × PinData)) (link_ids : List Uuid) (link_id : Uuid)
    (epos : Pos2) :
    ∀ pr ∈ siblingFanEntries links pins link_ids link_id epos, pr.1 ≠ link_id := by
  intro pr hpr
  unfold siblingFanEntries at hpr
  simp only [List.mem_map, List.mem_filterMap, List.mem_filter,
    Option.map_eq_some'] at hpr
  obtain ⟨q, ⟨r, ⟨lid, ⟨hlmem, hlne⟩, l, hl, hrl⟩, p, hp, hqp⟩, hqpr⟩ := hpr
  have h1 : pr.1 = q.1 := by rw [← hqpr]
  have h2 : q.1 = r.1 := by rw [← hqp]
  have h3 : r.1 = lid := by rw [← hrl]
  rw [h1, h2, h3]
  simpa using hlne

theorem provEntries_ids (pins : List (Uuid × PinData)) (epos : Pos2)
    (prov : Option (Uuid × Option Uuid)) (pin_id : Uuid) (pe : List (Uuid × Vec2))
    (h : provEntries pins epos prov pin_id = some pe) :
    ∀ pr ∈ pe, pr.1 = uuidNil := by
  intro pr hpr
  unfold provEntries at h
  rcases prov with _ | ⟨spid, ep⟩
  · cases h
    exact absurd hpr (List.not_mem_nil _)
  · rcases ep with _ | epid
    · cases h
      exact absurd hpr (List.not_mem_nil _)
    · simp only [] at h
      by_cases hc : epid = pin_id ∧ spid ≠ pin_id
      · rw [if_pos hc] at h
        simp only [Option.map_eq_some'] at h
        obtain ⟨sp, hsp, hlist⟩ := h
        rw [← hlist] at hpr
        rcases List.mem_singleton.mp hpr with rfl
        rfl
      · rw [if_neg hc] at h
        cases h
        exact absurd hpr (List.not_mem_nil _)

/-- **C8** (amended): with the end pin and its terminating-link list present
and the provisional contribution `pe` resolved, the reported fan index of a
(non-nil) queried link is the number of sibling entries whose start-to-end
angle is greater than **or equal to** the queried link's, plus one for the
provisional entry exactly when its angle is strictly greater: the queried
link is moved to the end of the candidate list before the stable descending
sort, so an equal-angle sibling precedes it regardless of declaration
order — the tie-break is not declaration order. -/
theorem c8_fan_index_counts (end_pin_links : List (Uuid × List Uuid))
    (links : List (Uuid × LinkData)) (pins : List (Uuid × PinData))
    (prov : Option (Uuid × Option Uuid)) (pin_id link_id : Uuid) (start_pos : Pos2)
    (end_pin : PinData) (link_ids : List Uuid) (pe : List (Uuid × Vec2))
    (hnil : link_id ≠ uuidNil)
    (hpin : mapGet pins pin_id = some end_pin)
    (hids : mapGet end_pin_links pin_id = some link_ids)
    (hpe : provEntries pins end_pin.pos prov pin_id = some pe) :
    link_index_for_end_pin end_pin_links links pins prov pin_id link_id start_pos
      = some ((siblingFanEntries links pins link_ids link_id end_pin.pos).countP
            (fun pr => ! decide (keyLt (angleKey pr.2)
              (angleKey (Pos2.sub end_pin.pos start_pos))))
          + pe.countP (fun pr => decide
              (keyLt (angleKey (Pos2.sub end_pin.pos start_pos)) (angleKey pr.2)))) := by
  unfold link_index_for_end_pin
  rw [hpin]
  simp only [Option.some_bind, bind]
  rw [hids]
  simp only [Option.some_bind]
  rw [hpe]
  simp only [Option.some_bind]
  rw [List.append_assoc]
  exact fanPosition_append (link_id, Pos2.sub end_pin.pos start_pos) _ pe
    (siblingFanEntries_ids links pins link_ids link_id end_pin.pos)
    (fun pr hpr h => hnil (h.symm.trans (provEntries_ids pins end_pin.pos prov pin_id pe hpe pr hpr)))

/-- Refutes the original C8 tie-break: link 1 is declared before its
equal-angle sibling link 2, so the spec's declaration-order tie-break puts it
at index 0, but the code reports index 1 (the queried link is moved behind
its equal-angle siblings before the stable sort). -/
theorem c8_tie_break_counterexample :
    link_index_for_end_pin c8Epm c8Links c8Pins none 10 1 PinData.new.pos = some 1
    ∧ specLinkIndexForEndPin c8Epm c8Links c8Pins none 10 1 = some 0 := by
  constructor
  · show link_index_for_end_pin c8Epm c8Links c8Pins none 10 1 PinData.new.pos = some 1
    norm_num [link_index_for_end_pin, siblingFanEntries, provEntries, fanPosition,
      sortFanEntries, insertFanEntry, listPosition, mapGet, angleKey, angleClass,
      angleSlope, keyLt, Pos2.sub, PinData.new, c8Pins, c8Links, c8Epm, uuidNil]
  · show specLinkIndexForEndPin c8Epm c8Links c8Pins none 10 1 = some 0
    norm_num [specLinkIndexForEndPin, provEntries, fanPosition,
      sortFanEntries, insertFanEntry, listPosition, mapGet, angleKey, angleClass,
      angleSlope, keyLt, Pos2.sub, PinData.new, c8Pins, c8Links, c8Epm, uuidNil]

theorem c8_fan_index_counts_witness :
    link_index_for_end_pin [(10, [1])] [] [(10, PinData.new)] none 10 1 ⟨0, 0⟩
      = some ((siblingFanEntries [] [(10, PinData.new)] [1] 1 PinData.new.pos).countP
            (fun pr => ! decide (keyLt (angleKey pr.2)
              (angleKey (Pos2.sub PinData.new.pos ⟨0, 0⟩))))
          + ([] : List (Uuid × Vec2)).countP (fun pr => decide
              (keyLt (angleKey (Pos2.sub PinData.new.pos ⟨0, 0⟩)) (angleKey pr.2)))) :=
  c8_fan_index_counts [(10, [1])] [] [(10, PinData.new)] none 10 1 ⟨0, 0⟩
    PinData.new [1] [] (by decide) rfl rfl rfl

/-- **C9**: for `N ≥ 2` terminating links the fan anchor of the link with
ordering index `i` is exactly the spec's formula: `pin + r·(cos a, −sin a)`
with `a = π − (N−1)·π/8 + i·π/4` and `r` the remapped, shape-radius-clamped
hover radius (`usize` and real `N − 1` agree as `N ≥ 2`). -/
theorem c9_anchor_formula (s : StyleF) (pin_pos mouse_pos : Pos2R) (N i : ℕ)
    (hN : 2 ≤ N) :
    s.calculate_link_end_pos pin_pos mouse_pos N i
      = specLinkEndAnchor s pin_pos mouse_pos N i := by
  unfold StyleF.calculate_link_end_pos specLinkEndAnchor
  have h1 : 1 ≤ N := le_trans (by norm_num) hN
  have hc : ((N - 1 : ℕ) : ℝ) = (N : ℝ) - 1 := by
    rw [Nat.cast_sub h1, Nat.cast_one]
  simp only [hc, StyleF.hovered_pin_radius, Pos2R.mk.injEq]
  constructor <;> ring

theorem c9_anchor_formula_witness :
    (2 : ℕ) ≤ 2
    ∧ c9Style.calculate_link_end_pos ⟨0, 0⟩ ⟨3, 4⟩ 2 0
        = specLinkEndAnchor c9Style ⟨0, 0⟩ ⟨3, 4⟩ 2 0 :=
  ⟨by decide, c9_anchor_formula c9Style ⟨0, 0⟩ ⟨3, 4⟩ 2 0 (by decide)⟩
